import Mathlib

/-!
Verification of the ss_lib signal/slot dispatcher (src/src/ss_lib.c) against
its specification.  The development shallowly embeds the default build of the
library: dynamic memory (SS_USE_STATIC_MEMORY = 0), statistics and tracing
disabled, single-threaded semantics (the registry mutex is a no-op for a
single logical call chain, and all claims concern sequential behaviour).

Modelling conventions:
* pointers/linked lists become Lean lists; a slot node is identified by its
  unique connection handle, which lets the emit loop's snapshotted next
  pointer be modelled as "continue at the node with this handle";
* the payload (ss_data_t) is irrelevant to every claim and is dropped; slot
  function pointers and user_data become opaque Nat identifiers;
* handler bodies are modelled as scripts of library calls (an environment
  mapping a function identifier to the list of calls the handler makes);
* a ghost event log records slot invocations, ss_emit entries, physical slot
  frees (together with the owning signal's emitting depth at the moment of
  the free) and the result codes of ss_disconnect_handle calls made from
  handlers; the log never influences behaviour;
* reentrant emission is bounded by a fuel parameter; all theorems either
  supply enough fuel or quantify over sufficiently large fuel.
-/

set_option maxRecDepth 100000

namespace SsLib

/-- SS_MAX_SIGNAL_NAME_LENGTH for the default dynamic build (ss_config.h). -/
def SS_MAX_SIGNAL_NAME_LENGTH : Nat := 256

/-- SS_DEFAULT_MAX_SLOTS_PER_SIGNAL (ss_config.h). -/
def SS_DEFAULT_MAX_SLOTS_PER_SIGNAL : Nat := 100

/-- SS_ISR_QUEUE_SIZE (ss_config.h). -/
def SS_ISR_QUEUE_SIZE : Nat := 16

/-- Capacity of the deferred queue.  The macro SS_DEFERRED_QUEUE_SIZE is used
by ss_lib.c but no header under src/ defines it (it must come from the build
system).  We fix a concrete capacity; every theorem below uses at most four
entries and none depends on the exact value. -/
def SS_DEFERRED_QUEUE_SIZE : Nat := 16

/-- ss_error_t (ss_lib.h). -/
inductive SsError where
  | SS_OK
  | SS_ERR_NULL_PARAM
  | SS_ERR_MEMORY
  | SS_ERR_NOT_FOUND
  | SS_ERR_ALREADY_EXISTS
  | SS_ERR_INVALID_TYPE
  | SS_ERR_BUFFER_TOO_SMALL
  | SS_ERR_MAX_SLOTS
  | SS_ERR_TIMEOUT
  | SS_ERR_WOULD_OVERFLOW
  | SS_ERR_ISR_UNSAFE
deriving DecidableEq, Repr

export SsError (SS_OK SS_ERR_NULL_PARAM SS_ERR_MEMORY SS_ERR_NOT_FOUND
  SS_ERR_ALREADY_EXISTS SS_ERR_INVALID_TYPE SS_ERR_BUFFER_TOO_SMALL
  SS_ERR_MAX_SLOTS SS_ERR_TIMEOUT SS_ERR_WOULD_OVERFLOW SS_ERR_ISR_UNSAFE)

/-- ss_priority_t values (ss_lib.h). -/
def SS_PRIORITY_LOW : Int := 0

/-- ss_priority_t NORMAL. -/
def SS_PRIORITY_NORMAL : Int := 5

/-- ss_priority_t HIGH. -/
def SS_PRIORITY_HIGH : Int := 10

/-- ss_priority_t CRITICAL. -/
def SS_PRIORITY_CRITICAL : Int := 15

/-- ss_slot_t: one subscription node.  func and user_data are opaque
identifiers standing for the C function pointer and context pointer; the
next pointer becomes list structure. -/
structure Slot where
  func : Nat
  user_data : Nat
  priority : Int
  handle : Nat
  removed : Bool
deriving DecidableEq, Repr

/-- ss_signal_t for the dynamic build (the next pointer becomes the registry
list structure). -/
structure Signal where
  name : String
  description : Option String
  slots : List Slot
  slot_count : Nat
  priority : Int
  emitting : Nat
deriving DecidableEq, Repr

/-- Ghost observation events.  freeSlot records the owning signal's emitting
counter at the moment a subscription node is physically released; discResult
records the return code of an ss_disconnect_handle call made from inside a
handler. -/
inductive Event where
  | invoke (h : Nat)
  | emitCall (name : String)
  | freeSlot (h : Nat) (depth : Nat)
  | discResult (h : Nat) (e : SsError)
deriving DecidableEq, Repr

/-- ss_context_t (dynamic build).  thread_safe, profiling, namespace and the
error-handler callback have no effect on any modelled observable and are
omitted; ub is set when the C code would touch freed memory (a handler
unregistering the signal being emitted). -/
structure State where
  signals : List Signal := []
  signal_count : Nat := 0
  max_slots_per_signal : Nat := SS_DEFAULT_MAX_SLOTS_PER_SIGNAL
  next_handle : Nat := 1
  deferred_queue : List String := List.replicate SS_DEFERRED_QUEUE_SIZE ""
  deferred_count : Nat := 0
  log : List Event := []
  ub : Bool := false
deriving DecidableEq, Repr

/-- The context produced by a first ss_init: calloc-zeroed, then
max_slots_per_signal and next_handle are set (ss_lib.c, ss_init). -/
def initState : State := {}

/-- ss_init.  The global context is an Option State; calloc is assumed to
succeed (the SS_ERR_MEMORY path is the only unmodelled outcome).  If the
context already exists the call returns SS_OK and changes nothing. -/
def ss_init : Option State → SsError × Option State
  | some st => (SS_OK, some st)
  | none => (SS_OK, some initState)

/-- ss_strscpy: copies at most count-1 characters and null-terminates, so the
stored string is the source truncated to count-1 characters.  (The C function
works on bytes; the model works on characters, which agrees on the ASCII
names used throughout.) -/
def ss_strscpy_store (src : String) (count : Nat) : String :=
  String.mk (src.data.take (count - 1))

/-- ss_strscpy's return value is -1 exactly when the copy truncated. -/
def ss_strscpy_truncated (src : String) (count : Nat) : Bool :=
  count == 0 || count ≤ src.length

/-- find_signal (dynamic build): walk the registry list, first name match. -/
def find_signal (name : String) (st : State) : Option Signal :=
  st.signals.find? (fun sig => sig.name == name)

/-- Mutation through the ss_signal_t pointer returned by find_signal: update
the first signal in the registry list with the given name. -/
def updateSignal (name : String) (f : Signal → Signal) : List Signal → List Signal
  | [] => []
  | sig :: rest =>
    if sig.name == name then f sig :: rest else sig :: updateSignal name f rest

/-- ss_signal_register_ex (validation, duplicate check, then prepend a fresh
signal node to the registry list). -/
def ss_signal_register_ex (name : String) (desc : Option String) (prio : Int)
    (st : State) : SsError × State :=
  if name.length == 0 then (SS_ERR_NULL_PARAM, st)
  else if SS_MAX_SIGNAL_NAME_LENGTH ≤ name.length then (SS_ERR_WOULD_OVERFLOW, st)
  else if (find_signal name st).isSome then (SS_ERR_ALREADY_EXISTS, st)
  else
    let new_sig : Signal :=
      { name := name, description := desc, slots := [], slot_count := 0,
        priority := prio, emitting := 0 }
    (SS_OK, { st with signals := new_sig :: st.signals,
                      signal_count := st.signal_count + 1 })

/-- ss_signal_register = ss_signal_register_ex with NULL description and
NORMAL priority. -/
def ss_signal_register (name : String) (st : State) : SsError × State :=
  ss_signal_register_ex name none SS_PRIORITY_NORMAL st

/-- Tail of the priority-sorted insertion of ss_connect_ex: the C loop
advances while the next node's priority is still >= the new priority and
links the new node after the last such node. -/
def slot_insert_tail (ns : Slot) : List Slot → List Slot
  | [] => [ns]
  | nxt :: rest =>
    if ns.priority ≤ nxt.priority then nxt :: slot_insert_tail ns rest
    else ns :: nxt :: rest

/-- Priority-sorted insertion of ss_connect_ex: a strictly higher priority
than the head goes to the head, otherwise the new node is linked after the
last node whose priority is >= the new one (stable among equals). -/
def insert_slot (ns : Slot) : List Slot → List Slot
  | [] => [ns]
  | h :: t =>
    if h.priority < ns.priority then ns :: h :: t
    else h :: slot_insert_tail ns t

/-- ss_connect_ex.  Returns (error, handle written to *handle, new state).
The C code checks the slot function pointer against NULL; function
identifiers in the model always denote valid functions. -/
def ss_connect_ex (name : String) (fid : Nat) (user_data : Nat) (prio : Int)
    (st : State) : SsError × Option Nat × State :=
  match find_signal name st with
  | none => (SS_ERR_NOT_FOUND, none, st)
  | some sig =>
    if st.max_slots_per_signal ≤ sig.slot_count then (SS_ERR_MAX_SLOTS, none, st)
    else
      let h := st.next_handle
      let ns : Slot :=
        { func := fid, user_data := user_data, priority := prio,
          handle := h, removed := false }
      let ins : Signal → Signal := fun s =>
        { s with slots := insert_slot ns s.slots, slot_count := s.slot_count + 1 }
      (SS_OK, some h,
        { st with next_handle := h + 1, signals := updateSignal name ins st.signals })

/-- sweep_removed_slots: unlink and free every tombstoned node, decrementing
the slot count once per freed node.  The ghost events record the owning
signal's emitting counter at the time of each free. -/
def sweep_removed_slots (sig : Signal) : Signal × List Event :=
  ({ sig with slots := sig.slots.filter (fun s => !s.removed),
              slot_count := sig.slot_count - (sig.slots.filter (fun s => s.removed)).length },
   (sig.slots.filter (fun s => s.removed)).map (fun s => Event.freeSlot s.handle sig.emitting))

/-- Inner loop of ss_disconnect_handle over one signal's slot list: first
node whose handle matches (the removed flag is NOT consulted); tombstone if
the signal is emitting, otherwise unlink.  Returns the new list, the ghost
free events, and whether a node was physically freed. -/
def disconnect_in_slots (h : Nat) (emitting : Nat) :
    List Slot → Option (List Slot × List Event × Bool)
  | [] => none
  | s :: rest =>
    if s.handle == h then
      if emitting ≠ 0 then some ({ s with removed := true } :: rest, [], false)
      else some (rest, [Event.freeSlot s.handle emitting], true)
    else
      (disconnect_in_slots h emitting rest).map
        (fun r => (s :: r.1, r.2.1, r.2.2))

/-- Outer loop of ss_disconnect_handle over the registry list. -/
def disconnect_in_signals (h : Nat) :
    List Signal → Option (List Signal × List Event)
  | [] => none
  | sig :: rest =>
    match disconnect_in_slots h sig.emitting sig.slots with
    | some (slots, evs, freed) =>
      let sig :=
        if freed then { sig with slots := slots, slot_count := sig.slot_count - 1 }
        else { sig with slots := slots }
      some (sig :: rest, evs)
    | none =>
      (disconnect_in_signals h rest).map (fun r => (sig :: r.1, r.2))

/-- ss_disconnect_handle: reject handle 0, then scan every signal's list for
the handle; tombstone while the owner is emitting, unlink otherwise. -/
def ss_disconnect_handle (h : Nat) (st : State) : SsError × State :=
  if h == 0 then (SS_ERR_NULL_PARAM, st)
  else
    match disconnect_in_signals h st.signals with
    | none => (SS_ERR_NOT_FOUND, st)
    | some (signals, evs) =>
      (SS_OK, { st with signals := signals, log := st.log ++ evs })

/-- Inner loop of ss_disconnect: first node with a matching function that is
not already tombstoned (this variant DOES consult the removed flag). -/
def disconnect_fn_slots (fid : Nat) (emitting : Nat) :
    List Slot → Option (List Slot × List Event × Bool)
  | [] => none
  | s :: rest =>
    if s.func == fid && !s.removed then
      if emitting ≠ 0 then some ({ s with removed := true } :: rest, [], false)
      else some (rest, [Event.freeSlot s.handle emitting], true)
    else
      (disconnect_fn_slots fid emitting rest).map
        (fun r => (s :: r.1, r.2.1, r.2.2))

/-- ss_disconnect (by signal name and function). -/
def ss_disconnect (name : String) (fid : Nat) (st : State) : SsError × State :=
  match find_signal name st with
  | none => (SS_ERR_NOT_FOUND, st)
  | some sig =>
    match disconnect_fn_slots fid sig.emitting sig.slots with
    | none => (SS_ERR_NOT_FOUND, st)
    | some (slots, evs, freed) =>
      let upd : Signal → Signal := fun s =>
        if freed then { s with slots := slots, slot_count := s.slot_count - 1 }
        else { s with slots := slots }
      (SS_OK, { st with signals := updateSignal name upd st.signals,
                        log := st.log ++ evs })

/-- ss_disconnect_all: while emitting, tombstone every node (the count is
untouched); otherwise free the whole list and zero the count. -/
def ss_disconnect_all (name : String) (st : State) : SsError × State :=
  match find_signal name st with
  | none => (SS_ERR_NOT_FOUND, st)
  | some sig =>
    if sig.emitting ≠ 0 then
      let mark : Signal → Signal := fun s =>
        { s with slots := s.slots.map (fun sl => { sl with removed := true }) }
      (SS_OK, { st with signals := updateSignal name mark st.signals })
    else
      let clear : Signal → Signal := fun s => { s with slots := [], slot_count := 0 }
      let evs := sig.slots.map (fun sl => Event.freeSlot sl.handle sig.emitting)
      (SS_OK, { st with signals := updateSignal name clear st.signals, log := st.log ++ evs })

/-- Removal of the signal node found by ss_signal_unregister (first name
match in the registry list). -/
def removeSignal (name : String) : List Signal → List Signal
  | [] => []
  | sig :: rest => if sig.name == name then rest else sig :: removeSignal name rest

/-- ss_signal_unregister: frees every slot of the signal unconditionally
(the emitting counter is not consulted), then unlinks and frees the signal
node itself. -/
def ss_signal_unregister (name : String) (st : State) : SsError × State :=
  match find_signal name st with
  | none => (SS_ERR_NOT_FOUND, st)
  | some sig =>
    let evs := sig.slots.map (fun sl => Event.freeSlot sl.handle sig.emitting)
    (SS_OK, { st with signals := removeSignal name st.signals,
                      signal_count := st.signal_count - 1, log := st.log ++ evs })

/-- ss_signal_exists. -/
def ss_signal_exists (name : String) (st : State) : Bool :=
  (find_signal name st).isSome

/-- ss_emit_deferred: bounded-queue overflow check, then the name is copied
into the fixed-width buffer of the entry at index deferred_count with
ss_strscpy (whose truncation result is ignored by the C code).  The payload
is dropped by the model. -/
def ss_emit_deferred (name : String) (st : State) : SsError × State :=
  if SS_DEFERRED_QUEUE_SIZE ≤ st.deferred_count then (SS_ERR_WOULD_OVERFLOW, st)
  else
    let stored := ss_strscpy_store name SS_MAX_SIGNAL_NAME_LENGTH
    let q := st.deferred_queue.set st.deferred_count stored
    (SS_OK, { st with deferred_queue := q, deferred_count := st.deferred_count + 1 })

/-- ss_emit's walk step: locate the node with the current handle and
snapshot the next node's handle (the C loop snapshots slot->next before
invoking slot->func). -/
def find_slot_with_next (h : Nat) : List Slot → Option (Slot × Option Nat)
  | [] => none
  | s :: rest =>
    if s.handle == h then some (s, rest.head?.map (fun x => x.handle))
    else find_slot_with_next h rest

/-- Decrement of sig->emitting at the end of ss_emit, followed by the sweep
when the counter reaches zero.  If the signal vanished during the walk the C
code would write freed memory; the model records ub. -/
def emit_finish (name : String) (st : State) : State :=
  match find_signal name st with
  | none => { st with ub := true }
  | some sig =>
    let sig := { sig with emitting := sig.emitting - 1 }
    if sig.emitting == 0 then
      let swept := sweep_removed_slots sig
      { st with signals := updateSignal name (fun _ => swept.1) st.signals,
                log := st.log ++ swept.2 }
    else { st with signals := updateSignal name (fun _ => sig) st.signals }

/-- Handler scripts: the library calls a handler body performs, in order. -/
inductive Cmd where
  | reg (name : String) (prio : Int)
  | connect (name : String) (fid : Nat) (prio : Int)
  | emit (name : String)
  | disconnectHandle (h : Nat)
  | disconnectFn (name : String) (fid : Nat)
  | disconnectAll (name : String)
  | unregister (name : String)
  | deferEmit (name : String)
  | flushDeferred
deriving DecidableEq, Repr

/-- An environment assigns to each function identifier the script its handler
body runs when invoked. -/
abbrev Env := Nat → List Cmd

/-- The mutually recursive control points of the reentrant part of the
library (emission, the emit loop, handler scripts, the deferred flush).
Bundling them into one descriptor lets the interpreter recurse structurally
on fuel, so that concrete runs reduce inside the kernel. -/
inductive Call where
  | emit (name : String)
  | walk (name : String) (cur : Option Nat)
  | cmds (cs : List Cmd)
  | cmd (c : Cmd)
  | flush
  | floop (i c : Nat) (acc : SsError)
deriving DecidableEq, Repr

/-- The reentrant interpreter.  Each branch is the direct transcription of
the corresponding C code:
* emit: log the attempt, find the signal (NOT_FOUND if absent), bump its
  emitting depth, walk the slot list from the head, then decrement and sweep
  (emit_finish);
* walk: locate the node with the current handle, snapshot the next handle
  BEFORE invoking (slot->next is saved first), invoke the handler if the
  node is not tombstoned, continue at the snapshot; a dangling handle or a
  vanished signal (possible only after a handler unregistered the signal
  being emitted, where the C code is undefined) sets ub;
* cmds/cmd: a handler body running its library calls in order, discarding
  result codes (ss_disconnect_handle results are kept as ghost events);
* flush/floop: ss_flush_deferred snapshots the count, zeroes it, then
  replays entries 0..count-1, each read from the live queue array, keeping
  the last non-OK result.
Fuel only bounds the recursion depth; every theorem supplies enough. -/
def step (env : Env) : Nat → Call → State → SsError × State
  | 0, _, st => (SS_OK, st)
  | fuel + 1, call, st =>
    match call with
    | Call.emit name =>
      let st := { st with log := st.log ++ [Event.emitCall name] }
      match find_signal name st with
      | none => (SS_ERR_NOT_FOUND, st)
      | some sig =>
        let bump : Signal → Signal := fun s => { s with emitting := s.emitting + 1 }
        let st := { st with signals := updateSignal name bump st.signals }
        let st := (step env fuel (Call.walk name (sig.slots.head?.map (fun s => s.handle))) st).2
        (SS_OK, emit_finish name st)
    | Call.walk _ none => (SS_OK, st)
    | Call.walk name (some h) =>
      match find_signal name st with
      | none => (SS_OK, { st with ub := true })
      | some sig =>
        match find_slot_with_next h sig.slots with
        | none => (SS_OK, { st with ub := true })
        | some (s, nxt) =>
          let st :=
            if s.removed then st
            else (step env fuel (Call.cmds (env s.func))
              { st with log := st.log ++ [Event.invoke h] }).2
          step env fuel (Call.walk name nxt) st
    | Call.cmds [] => (SS_OK, st)
    | Call.cmds (c :: cs) =>
      step env fuel (Call.cmds cs) (step env fuel (Call.cmd c) st).2
    | Call.cmd c =>
      match c with
      | Cmd.reg name prio => (SS_OK, (ss_signal_register_ex name none prio st).2)
      | Cmd.connect name fid prio => (SS_OK, (ss_connect_ex name fid 0 prio st).2.2)
      | Cmd.emit name => (SS_OK, (step env fuel (Call.emit name) st).2)
      | Cmd.disconnectHandle h =>
        let r := ss_disconnect_handle h st
        (SS_OK, { r.2 with log := r.2.log ++ [Event.discResult h r.1] })
      | Cmd.disconnectFn name fid => (SS_OK, (ss_disconnect name fid st).2)
      | Cmd.disconnectAll name => (SS_OK, (ss_disconnect_all name st).2)
      | Cmd.unregister name => (SS_OK, (ss_signal_unregister name st).2)
      | Cmd.deferEmit name => (SS_OK, (ss_emit_deferred name st).2)
      | Cmd.flushDeferred => (SS_OK, (step env fuel Call.flush st).2)
    | Call.flush =>
      let c := st.deferred_count
      step env fuel (Call.floop 0 c SS_OK) { st with deferred_count := 0 }
    | Call.floop i c acc =>
      if i < c then
        let entry := st.deferred_queue.getD i ""
        let r := step env fuel (Call.emit entry) st
        step env fuel (Call.floop (i + 1) c (if r.1 = SS_OK then acc else r.1)) r.2
      else (acc, st)

/-- ss_emit through the interpreter. -/
def ss_emit (env : Env) (fuel : Nat) (name : String) (st : State) :
    SsError × State :=
  step env fuel (Call.emit name) st

/-- The emit loop of ss_emit. -/
def emit_walk (env : Env) (fuel : Nat) (name : String) (cur : Option Nat)
    (st : State) : State :=
  (step env fuel (Call.walk name cur) st).2

/-- A handler body running its script. -/
def runCmds (env : Env) (fuel : Nat) (cs : List Cmd) (st : State) : State :=
  (step env fuel (Call.cmds cs) st).2

/-- ss_flush_deferred through the interpreter. -/
def ss_flush_deferred (env : Env) (fuel : Nat) (st : State) : SsError × State :=
  step env fuel Call.flush st

/-- ISR capture queue slot (ss_lib.c, g_isr_queue). -/
structure IsrSlot where
  signal_name : String
  value : Int
  pending : Bool
deriving DecidableEq, Repr

/-- The zero-initialised ISR queue. -/
def isr_queue_init : List IsrSlot :=
  List.replicate SS_ISR_QUEUE_SIZE { signal_name := "", value := 0, pending := false }

/-- Scan of ss_emit_from_isr: first slot with pending == false receives the
(ss_strscpy-copied) name and the value, and pending is set; a full queue
yields SS_ERR_WOULD_OVERFLOW with no change. -/
def isr_scan (name : String) (v : Int) : List IsrSlot → SsError × List IsrSlot
  | [] => (SS_ERR_WOULD_OVERFLOW, [])
  | s :: rest =>
    if !s.pending then
      (SS_OK,
        { signal_name := ss_strscpy_store name SS_MAX_SIGNAL_NAME_LENGTH,
          value := v, pending := true } :: rest)
    else
      let r := isr_scan name v rest
      (r.1, s :: r.2)

/-- ss_emit_from_isr (SS_ENABLE_ISR_SAFE build): a single non-blocking,
allocation-free linear scan of the capture queue.  The C store ordering
(name and value before the pending flag, behind a release barrier) collapses
to one atomic slot update in this sequential model. -/
def ss_emit_from_isr (name : String) (v : Int) (q : List IsrSlot) :
    SsError × List IsrSlot :=
  isr_scan name v q

/-- Iterated ss_connect_ex calls on one signal (fixed function identifier and
user data; the inserted priorities are the interesting input). -/
def apply_connects (name : String) : List Int → State → State
  | [], st => st
  | p :: ps, st => apply_connects name ps (ss_connect_ex name 0 0 p st).2.2

/-- Iterated ss_emit_from_isr captures. -/
def isr_capture_all : List (String × Int) → List IsrSlot →
    List SsError × List IsrSlot
  | [], q => ([], q)
  | e :: es, q =>
    let r := ss_emit_from_isr e.1 e.2 q
    let rest := isr_capture_all es r.2
    (r.1 :: rest.1, rest.2)

/-- Projection of the ghost log onto handler invocations. -/
def invokesOf (l : List Event) : List Nat :=
  l.filterMap (fun e => match e with | Event.invoke h => some h | _ => none)

/-- Projection of the ghost log onto ss_emit entries. -/
def emitCallsOf (l : List Event) : List String :=
  l.filterMap (fun e => match e with | Event.emitCall n => some n | _ => none)

/-!  Ordering of a signal's subscription list.  stableR is the intended list
order: non-increasing priority, and among equal priorities ascending handles
(handles are assigned in connection order, so this is first-connected-first).
-/

/-- The order a signal's slot list is supposed to satisfy. -/
def stableR (a b : Slot) : Prop :=
  b.priority < a.priority ∨ (a.priority = b.priority ∧ a.handle < b.handle)

instance stableR_dec : DecidableRel stableR := fun a b =>
  inferInstanceAs (Decidable (b.priority < a.priority ∨ (a.priority = b.priority ∧ a.handle < b.handle)))

/-- The scan predicate of the insertion loop: nodes the new slot goes after. -/
def keepsAhead (p : Int) (s : Slot) : Bool := decide (p ≤ s.priority)

/-- State shape maintained by any sequence of ss_connect_ex calls on a
freshly registered signal: single-signal registry, slot list in the stable
order, no tombstones, handles positive, fresh and distinct, not emitting. -/
def C1Inv (n : String) (st : State) : Prop :=
  0 < st.next_handle ∧
  ∃ sig, st.signals = [sig] ∧ sig.name = n ∧ sig.emitting = 0 ∧
    sig.slots.Pairwise stableR ∧
    (∀ s ∈ sig.slots, s.removed = false) ∧
    (∀ s ∈ sig.slots, 0 < s.handle ∧ s.handle < st.next_handle) ∧
    (sig.slots.map (fun s => s.handle)).Nodup

/-- Handler scripts that cannot change the (single-signal) registry: the
empty script, or one ss_disconnect_handle call on a handle that no slot of
the signal carries. -/
def benignScript (env : Env) (handles : List Nat) (fid : Nat) : Prop :=
  env fid = [] ∨ ∃ hh, env fid = [Cmd.disconnectHandle hh] ∧ hh ∉ handles

/-- The C1 property of one connect sequence: after registering signal n and
running ss_connect_ex for each priority in ps, the subscription list is
ordered by non-increasing priority with ties in ascending handle order
(handles are assigned in connection order, so first connected fires first),
carries no tombstones and no duplicate handles, and an ss_emit whose handlers
do nothing returns SS_OK and invokes exactly the slot handles in list
order. -/
def C1Spec (n : String) (p₀ : Int) (ps : List Int) : Prop :=
  ∃ sig, find_signal n (apply_connects n ps (ss_signal_register_ex n none p₀ initState).2) = some sig ∧
    sig.slots.Pairwise stableR ∧
    (sig.slots.map (fun s => s.handle)).Nodup ∧
    (∀ s ∈ sig.slots, s.removed = false) ∧
    (∀ env : Env, (∀ fid, env fid = []) → ∀ fuel, sig.slots.length + 3 ≤ fuel →
      (ss_emit env fuel n (apply_connects n ps (ss_signal_register_ex n none p₀ initState).2)).1 = SS_OK ∧
      invokesOf ((ss_emit env fuel n (apply_connects n ps (ss_signal_register_ex n none p₀ initState).2)).2.log.drop
          (apply_connects n ps (ss_signal_register_ex n none p₀ initState).2).log.length) =
        sig.slots.map (fun s => s.handle))

/-- All registered names are non-empty and storable, which is an invariant
of every reachable registry (ss_signal_register_ex validates before
storing). -/
def WFNames (st : State) : Prop :=
  ∀ sig ∈ st.signals, ¬ sig.name.length = 0 ∧ sig.name.length < SS_MAX_SIGNAL_NAME_LENGTH

instance WFNames_dec (st : State) : Decidable (WFNames st) :=
  inferInstanceAs (Decidable (∀ sig ∈ st.signals,
    ¬ sig.name.length = 0 ∧ sig.name.length < SS_MAX_SIGNAL_NAME_LENGTH))

/-- A free slot of the zero-initialised ISR queue. -/
def isrFree : IsrSlot := { signal_name := "", value := 0, pending := false }

/-- The slot an ISR capture leaves behind. -/
def isrPendingOf (e : String × Int) : IsrSlot :=
  { signal_name := e.1, value := e.2, pending := true }

/-- Every physical free recorded in a batch of ghost events happened at
emitting depth zero. -/
def GoodEvs (Δ : List Event) : Prop :=
  ∀ e ∈ Δ, ∀ h d, e = Event.freeSlot h d → d = 0

/-- The transition from st to t only appended ghost events, and every
physical free among them happened at emitting depth zero. -/
def GoodLog (st t : State) : Prop :=
  ∃ Δ, t.log = st.log ++ Δ ∧ GoodEvs Δ

/-- Handler scripts that never call ss_signal_unregister (the only
operation that frees subscriptions without consulting the emitting
counter). -/
def Cmd.noUnreg : Cmd → Bool
  | Cmd.unregister _ => false
  | _ => true

/-- All scripts of the environment avoid ss_signal_unregister. -/
def EnvNoUnreg (env : Env) : Prop := ∀ fid, ∀ c ∈ env fid, c.noUnreg = true

/-- Interpreter call descriptors whose pending work avoids
ss_signal_unregister. -/
def CallOK : Call → Prop
  | Call.cmds cs => ∀ c ∈ cs, c.noUnreg = true
  | Call.cmd c => c.noUnreg = true
  | _ => True

/-- Environment for the C4 trace: the only handler of signal a enqueues two
deferred entries while the flush is running. -/
def c4_env : Env := fun fid => if fid == 1 then [Cmd.deferEmit "c", Cmd.deferEmit "d"] else []

/-- State for the C4 trace: signals a, b, c, d registered, one handler on a,
and entries a then b queued with ss_emit_deferred. -/
def c4_state : State :=
  (ss_emit_deferred "b"
    (ss_emit_deferred "a"
      (ss_connect_ex "a" 1 0 5
        (ss_signal_register_ex "d" none 5
          (ss_signal_register_ex "c" none 5
            (ss_signal_register_ex "b" none 5
              (ss_signal_register_ex "a" none 5 initState).2).2).2).2).2.2).2).2

/-- The effect of an in-emission ss_disconnect_handle hT on a slot node:
the matching node is tombstoned, every other node is untouched. -/
def markHandle (hT : Nat) (s : Slot) : Slot :=
  if s.handle == hT then { s with removed := true } else s

/-- Environment for the C2 witness: the handler of function 9 (the CRITICAL
subscriber) disconnects handle 3; every other handler does nothing. -/
def c2_env : Env := fun fid => if fid == 9 then [Cmd.disconnectHandle 3] else []

/-- State for the C2 witness: signal s with three subscribers — handle 1
(function 9, CRITICAL), handle 2 (HIGH), handle 3 (NORMAL, the target). -/
def c2_state : State :=
  let st := (ss_signal_register_ex "s" none 5 initState).2
  let st := (ss_connect_ex "s" 9 0 SS_PRIORITY_CRITICAL st).2.2
  let st := (ss_connect_ex "s" 0 0 SS_PRIORITY_HIGH st).2.2
  (ss_connect_ex "s" 0 0 SS_PRIORITY_NORMAL st).2.2

theorem slot_insert_tail_eq (ns : Slot) (l : List Slot) :
    slot_insert_tail ns l =
      l.takeWhile (keepsAhead ns.priority) ++ ns :: l.dropWhile (keepsAhead ns.priority) := by
  induction l with
  | nil => simp [slot_insert_tail]
  | cons x xs ih =>
    by_cases hx : ns.priority ≤ x.priority
    · simp [slot_insert_tail, hx, keepsAhead, ih]
    · simp [slot_insert_tail, hx, keepsAhead, not_le.mp hx |>.not_le]

theorem insert_slot_eq (ns : Slot) (l : List Slot) :
    insert_slot ns l =
      l.takeWhile (keepsAhead ns.priority) ++ ns :: l.dropWhile (keepsAhead ns.priority) := by
  cases l with
  | nil => simp [insert_slot]
  | cons x xs =>
    by_cases hx : x.priority < ns.priority
    · simp [insert_slot, hx, keepsAhead, hx.not_le]
    · simp [insert_slot, hx, keepsAhead, not_lt.mp hx, slot_insert_tail_eq]

/-- insert_slot is insertion: the result is a permutation of consing. -/
theorem insert_slot_perm (ns : Slot) (l : List Slot) :
    (insert_slot ns l).Perm (ns :: l) := by
  rw [insert_slot_eq]
  have h := @List.perm_middle _ ns
    (l.takeWhile (keepsAhead ns.priority)) (l.dropWhile (keepsAhead ns.priority))
  simpa [List.takeWhile_append_dropWhile] using h

theorem mem_insert_slot {s ns : Slot} {l : List Slot} :
    s ∈ insert_slot ns l ↔ s = ns ∨ s ∈ l := by
  rw [(insert_slot_perm ns l).mem_iff, List.mem_cons]

/-- Everything the dropWhile part of the insertion point sees has strictly
lower priority than the inserted slot, provided the list was ordered. -/
theorem dropWhile_priority_lt {p : Int} {l : List Slot} (H : l.Pairwise stableR) :
    ∀ b ∈ l.dropWhile (keepsAhead p), b.priority < p := by
  induction l with
  | nil => simp
  | cons x xs ih =>
    by_cases hx : p ≤ x.priority
    · rw [List.dropWhile_cons_of_pos (by simpa [keepsAhead] using hx)]
      exact ih H.of_cons
    · rw [List.dropWhile_cons_of_neg (by simpa [keepsAhead] using hx)]
      intro b hb
      rcases List.mem_cons.mp hb with rfl | hb
      · exact not_le.mp hx
      · rcases List.rel_of_pairwise_cons H hb with h | h
        · exact h.trans (not_le.mp hx)
        · exact h.1 ▸ not_le.mp hx

/-- One priority-sorted insertion preserves the stable order, provided the
new slot's handle is fresh (larger than every handle already present). -/
theorem insert_slot_pairwise {ns : Slot} {l : List Slot}
    (H : l.Pairwise stableR) (hb : ∀ s ∈ l, s.handle < ns.handle) :
    (insert_slot ns l).Pairwise stableR := by
  rw [insert_slot_eq]
  have hsplit : l.takeWhile (keepsAhead ns.priority) ++ l.dropWhile (keepsAhead ns.priority) = l :=
    List.takeWhile_append_dropWhile (keepsAhead ns.priority) l
  have H' : (l.takeWhile (keepsAhead ns.priority) ++
      l.dropWhile (keepsAhead ns.priority)).Pairwise stableR := by
    rw [hsplit]; exact H
  rw [List.pairwise_append] at H'
  obtain ⟨Ht, Hd, Hcross⟩ := H'
  rw [List.pairwise_append]
  refine ⟨Ht, ?_, ?_⟩
  · rw [List.pairwise_cons]
    exact ⟨fun b hb' => Or.inl (dropWhile_priority_lt H b hb'), Hd⟩
  · intro a ha b hbm
    rcases List.mem_cons.mp hbm with rfl | hbd
    · have hpa : b.priority ≤ a.priority := by
        have := List.mem_takeWhile_imp ha
        simpa [keepsAhead] using this
      rcases lt_or_eq_of_le hpa with hlt | heq
      · exact Or.inl hlt
      · refine Or.inr ⟨heq.symm, ?_⟩
        have hal : a ∈ l := by
          rw [← hsplit]; exact List.mem_append_left _ ha
        exact hb a hal
    · exact Hcross a ha b hbd

theorem find_signal_singleton {sig : Signal} {n : String} (h : sig.name = n)
    {st : State} (hs : st.signals = [sig]) : find_signal n st = some sig := by
  simp [find_signal, hs, h]

theorem updateSignal_singleton (n : String) (f : Signal → Signal) {sig : Signal}
    (h : sig.name = n) : updateSignal n f [sig] = [f sig] := by
  simp [updateSignal, h]

theorem connect_preserves_C1Inv {n : String} {st : State} (H : C1Inv n st)
    (fid ud : Nat) (p : Int) : C1Inv n (ss_connect_ex n fid ud p st).2.2 := by
  obtain ⟨hpos, sig, hs, hn, he, hp, hr, hb, hnd⟩ := H
  have hfind : find_signal n st = some sig := find_signal_singleton hn hs
  by_cases hcap : st.max_slots_per_signal ≤ sig.slot_count
  · have hres : (ss_connect_ex n fid ud p st).2.2 = st := by
      simp [ss_connect_ex, hfind, hcap]
    rw [hres]
    exact ⟨hpos, sig, hs, hn, he, hp, hr, hb, hnd⟩
  · have hres : (ss_connect_ex n fid ud p st).2.2 =
        { st with next_handle := st.next_handle + 1, signals := [{ sig with slots := insert_slot ⟨fid, ud, p, st.next_handle, false⟩ sig.slots, slot_count := sig.slot_count + 1 }] } := by
      simp [ss_connect_ex, hfind, hcap, hs, updateSignal_singleton n _ hn]
    rw [hres]
    refine ⟨Nat.lt_succ_of_lt hpos, _, rfl, hn, he, ?_, ?_, ?_, ?_⟩
    · exact insert_slot_pairwise hp (fun s hsm => (hb s hsm).2)
    · intro s hsm
      rcases mem_insert_slot.mp hsm with rfl | hsm
      · rfl
      · exact hr s hsm
    · intro s hsm
      rcases mem_insert_slot.mp hsm with rfl | hsm
      · exact ⟨hpos, Nat.lt_succ_self _⟩
      · exact ⟨(hb s hsm).1, Nat.lt_succ_of_lt (hb s hsm).2⟩
    · have hperm := (insert_slot_perm ⟨fid, ud, p, st.next_handle, false⟩ sig.slots).map
        (fun s => s.handle)
      rw [hperm.nodup_iff]
      simp only [List.map_cons, List.nodup_cons]
      refine ⟨?_, hnd⟩
      intro hmem
      rcases List.mem_map.mp hmem with ⟨s, hsm, hhs⟩
      have hlt := (hb s hsm).2
      omega

theorem register_C1Inv {n : String} (p : Int) (h0 : ¬ n.length = 0)
    (h1 : n.length < SS_MAX_SIGNAL_NAME_LENGTH) :
    C1Inv n (ss_signal_register_ex n none p initState).2 := by
  have hres : (ss_signal_register_ex n none p initState).2 =
      { initState with signals := [⟨n, none, [], 0, p, 0⟩], signal_count := 0 + 1 } := by
    simp [ss_signal_register_ex, h0, Nat.not_le.mpr h1, find_signal, initState]
  rw [hres]
  exact ⟨Nat.one_pos, _, rfl, rfl, rfl, List.Pairwise.nil, by simp, by simp, by simp⟩

theorem apply_connects_C1Inv {n : String} {st : State} (H : C1Inv n st) :
    ∀ ps : List Int, ∀ st₀, st₀ = st → C1Inv n (apply_connects n ps st₀) := by
  intro ps
  induction ps generalizing st with
  | nil => intro st₀ hst; rw [hst]; simpa [apply_connects] using H
  | cons p ps ih =>
    intro st₀ hst
    rw [hst]
    simp only [apply_connects]
    exact ih (connect_preserves_C1Inv H 0 0 p) _ rfl

theorem find_slot_with_next_eq {h : Nat} (done : List Slot) {s : Slot} (rest : List Slot)
    (hs : s.handle = h) (hd : ∀ x ∈ done, x.handle ≠ h) :
    find_slot_with_next h (done ++ s :: rest) =
      some (s, rest.head?.map (fun x => x.handle)) := by
  induction done with
  | nil => simp [find_slot_with_next, hs]
  | cons x xs ih =>
    have hx : x.handle ≠ h := hd x (List.mem_cons_self x xs)
    simpa [find_slot_with_next, hx] using ih (fun y hy => hd y (List.mem_cons_of_mem x hy))

theorem disconnect_in_slots_none {h em : Nat} {l : List Slot}
    (hab : ∀ s ∈ l, s.handle ≠ h) : disconnect_in_slots h em l = none := by
  induction l with
  | nil => rfl
  | cons s rest ih =>
    have hs : s.handle ≠ h := hab s (List.mem_cons_self s rest)
    simp [disconnect_in_slots, hs,
      ih (fun x hx => hab x (List.mem_cons_of_mem s hx))]

theorem disconnect_in_signals_none {h : Nat} {gs : List Signal}
    (hab : ∀ sig ∈ gs, ∀ s ∈ sig.slots, s.handle ≠ h) :
    disconnect_in_signals h gs = none := by
  induction gs with
  | nil => rfl
  | cons g rest ih =>
    simp [disconnect_in_signals,
      disconnect_in_slots_none (hab g (List.mem_cons_self g rest)),
      ih (fun sig hsig => hab sig (List.mem_cons_of_mem g hsig))]

theorem ss_disconnect_handle_absent {h : Nat} {st : State}
    (hab : ∀ sig ∈ st.signals, ∀ s ∈ sig.slots, s.handle ≠ h) :
    (ss_disconnect_handle h st).2 = st := by
  by_cases h0 : h = 0
  · simp [ss_disconnect_handle, h0]
  · simp [ss_disconnect_handle, h0, disconnect_in_signals_none hab]

theorem emit_walk_nil (env : Env) (fuel : Nat) (n : String) (st : State) :
    emit_walk env fuel n none st = st := by
  cases fuel <;> rfl

theorem runCmds_nil (env : Env) (fuel : Nat) (st : State) :
    runCmds env fuel [] st = st := by
  cases fuel <;> rfl

theorem emit_walk_cons (env : Env) (f : Nat) (n : String) (h : Nat) (st : State)
    {sig : Signal} (hfind : find_signal n st = some sig) {s : Slot} {nxt : Option Nat}
    (hfsn : find_slot_with_next h sig.slots = some (s, nxt)) :
    emit_walk env (f + 1) n (some h) st =
      emit_walk env f n nxt
        (if s.removed then st
         else runCmds env f (env s.func) { st with log := st.log ++ [Event.invoke h] }) := by
  rw [emit_walk, emit_walk, runCmds]
  simp only [step]
  simp only [hfind]
  simp only [hfsn]

theorem runCmds_disc (env : Env) (hh : Nat) {fuel : Nat} (hf : 2 ≤ fuel) (st : State) :
    runCmds env fuel [Cmd.disconnectHandle hh] st =
      { (ss_disconnect_handle hh st).2 with
        log := (ss_disconnect_handle hh st).2.log ++ [Event.discResult hh (ss_disconnect_handle hh st).1] } := by
  obtain ⟨g, rfl⟩ : ∃ g, fuel = g + 2 := ⟨fuel - 2, by omega⟩
  rw [runCmds]
  rfl

theorem emit_walk_benign (env : Env) {n : String} {sig : Signal} (hn : sig.name = n)
    (hnd : (sig.slots.map (fun x => x.handle)).Nodup) :
    ∀ (rest done : List Slot) (st : State) (fuel : Nat),
      st.signals = [sig] → sig.slots = done ++ rest → rest.length + 2 ≤ fuel →
      (∀ s ∈ rest, benignScript env (sig.slots.map (fun x => x.handle)) s.func) →
      ∃ Δ, emit_walk env fuel n (rest.head?.map (fun x => x.handle)) st =
            { st with log := st.log ++ Δ } ∧
        invokesOf Δ = (rest.filter (fun s => !s.removed)).map (fun s => s.handle) := by
  intro rest
  induction rest with
  | nil =>
    intro done st fuel _ _ _ _
    refine ⟨[], ?_, by simp [invokesOf]⟩
    rw [List.head?_nil, Option.map_none', emit_walk_nil]
    simp
  | cons s rest ih =>
    intro done st fuel hsigs hsplit hfuel hben
    cases fuel with
    | zero => omega
    | succ f =>
      have hf2 : 2 ≤ f := by simp at hfuel; omega
      have hfind := find_signal_singleton hn hsigs
      have hdone : ∀ x ∈ done, x.handle ≠ s.handle := by
        intro x hx
        have hnd' := hnd
        rw [hsplit, List.map_append, List.nodup_append] at hnd'
        intro hEq
        exact hnd'.2.2 (List.mem_map_of_mem _ hx) (by simp [hEq])
      have hfsn : find_slot_with_next s.handle sig.slots =
          some (s, rest.head?.map (fun x => x.handle)) := by
        rw [hsplit]
        exact find_slot_with_next_eq done rest rfl hdone
      have hstep : emit_walk env (f + 1) n ((s :: rest).head?.map (fun x => x.handle)) st =
          emit_walk env f n (rest.head?.map (fun x => x.handle))
            (if s.removed then st
             else runCmds env f (env s.func)
               { st with log := st.log ++ [Event.invoke s.handle] }) := by
        simp only [List.head?_cons, Option.map_some']
        exact emit_walk_cons env f n s.handle st hfind hfsn
      by_cases hrem : s.removed
      · obtain ⟨Δ, hw, hi⟩ := ih (done ++ [s]) st f hsigs (by rw [hsplit]; simp)
          (by simp at hfuel ⊢; omega)
          (fun x hx => hben x (List.mem_cons_of_mem s hx))
        refine ⟨Δ, ?_, ?_⟩
        · rw [hstep, if_pos hrem, hw]
        · rw [hi, List.filter_cons_of_neg (by simp [hrem])]
      · have hE : ∃ E, runCmds env f (env s.func)
              { st with log := st.log ++ [Event.invoke s.handle] } =
            { st with log := st.log ++ (Event.invoke s.handle :: E) } ∧
            invokesOf (Event.invoke s.handle :: E) = [s.handle] := by
          rcases hben s (List.mem_cons_self s rest) with hnil | ⟨hh, hscr, hhab⟩
          · refine ⟨[], ?_, by simp [invokesOf]⟩
            rw [hnil, runCmds_nil]
          · have habs : ∀ sg ∈ ({ st with log := st.log ++ [Event.invoke s.handle] } : State).signals,
                ∀ x ∈ sg.slots, x.handle ≠ hh := by
              intro sg hsg x hx
              simp only [hsigs] at hsg
              rcases List.mem_singleton.mp hsg with rfl
              intro hEq
              exact hhab (hEq ▸ List.mem_map_of_mem _ hx)
            have hunch := ss_disconnect_handle_absent habs
            refine ⟨[Event.discResult hh
              (ss_disconnect_handle hh { st with log := st.log ++ [Event.invoke s.handle] }).1], ?_, by simp [invokesOf]⟩
            rw [hscr, runCmds_disc env hh hf2]
            rw [hunch]
            simp
        obtain ⟨E, hrc, hiE⟩ := hE
        obtain ⟨Δ, hw, hi⟩ := ih (done ++ [s])
            { st with log := st.log ++ (Event.invoke s.handle :: E) } f
            (by simp [hsigs]) (by rw [hsplit]; simp) (by simp at hfuel ⊢; omega)
            (fun x hx => hben x (List.mem_cons_of_mem s hx))
        refine ⟨(Event.invoke s.handle :: E) ++ Δ, ?_, ?_⟩
        · rw [hstep, if_neg hrem, hrc, hw]
          simp
        · rw [invokesOf, List.filterMap_append, ← invokesOf, ← invokesOf, hiE, hi,
            List.filter_cons_of_pos (by simp [hrem])]
          simp

theorem ss_emit_unfold (env : Env) (f : Nat) (n : String) (st : State) {sig : Signal}
    (hfind : find_signal n st = some sig) :
    ss_emit env (f + 1) n st = (SS_OK, emit_finish n
      (emit_walk env f n (sig.slots.head?.map (fun s => s.handle))
        { st with log := st.log ++ [Event.emitCall n],
                  signals := updateSignal n (fun s => { s with emitting := s.emitting + 1 }) st.signals })) := by
  rw [ss_emit, emit_walk]
  simp only [step]
  have hfind' : find_signal n { st with log := st.log ++ [Event.emitCall n] } = some sig := hfind
  simp only [hfind']

/-- Full characterisation of one ss_emit on a single-signal registry whose
handlers cannot change the registry: the emission returns SS_OK, invokes
exactly the non-tombstoned slots in list order, and the final sweep drops
exactly the tombstoned slots. -/
theorem ss_emit_benign (env : Env) {nm : String} {ds : Option String} {sl : List Slot}
    {sc : Nat} {pr : Int} {st : State}
    (hsigs : st.signals = [⟨nm, ds, sl, sc, pr, 0⟩])
    (hnd : (sl.map (fun x => x.handle)).Nodup)
    (hben : ∀ s ∈ sl, benignScript env (sl.map (fun x => x.handle)) s.func)
    {fuel : Nat} (hfuel : sl.length + 3 ≤ fuel) :
    ∃ Δ, ss_emit env fuel nm st = (SS_OK,
        { st with signals := [⟨nm, ds, sl.filter (fun s => !s.removed), sc - (sl.filter (fun s => s.removed)).length, pr, 0⟩],
                  log := (st.log ++ (Event.emitCall nm :: Δ)) ++ (sl.filter (fun s => s.removed)).map (fun s => Event.freeSlot s.handle 0) }) ∧
      invokesOf Δ = (sl.filter (fun s => !s.removed)).map (fun s => s.handle) := by
  obtain ⟨f, rfl⟩ : ∃ f, fuel = f + 1 := ⟨fuel - 1, by omega⟩
  have hfind : find_signal nm st = some ⟨nm, ds, sl, sc, pr, 0⟩ :=
    find_signal_singleton rfl hsigs
  obtain ⟨Δ, hw, hi⟩ := @emit_walk_benign env nm ⟨nm, ds, sl, sc, pr, 1⟩ rfl hnd sl []
    { st with log := st.log ++ [Event.emitCall nm], signals := [⟨nm, ds, sl, sc, pr, 1⟩] }
    f rfl rfl (by omega) hben
  refine ⟨Δ, ?_, hi⟩
  rw [ss_emit_unfold env f nm st hfind]
  have hupd : ({ st with log := st.log ++ [Event.emitCall nm],
                         signals := updateSignal nm (fun s => { s with emitting := s.emitting + 1 }) st.signals } : State) =
      { st with log := st.log ++ [Event.emitCall nm], signals := [⟨nm, ds, sl, sc, pr, 1⟩] } := by
    rw [hsigs, updateSignal_singleton nm _ rfl]
  rw [hupd]
  simp only at hw
  rw [hw]
  have hfind₂ : find_signal nm ({ st with log := (st.log ++ [Event.emitCall nm]) ++ Δ,
                                          signals := [⟨nm, ds, sl, sc, pr, 1⟩] } : State) = some ⟨nm, ds, sl, sc, pr, 1⟩ :=
    @find_signal_singleton ⟨nm, ds, sl, sc, pr, 1⟩ nm rfl _ rfl
  rw [emit_finish]
  simp only [hfind₂]
  simp [sweep_removed_slots, updateSignal]

theorem filter_not_removed_of_all {l : List Slot} (h : ∀ s ∈ l, s.removed = false) :
    l.filter (fun s => !s.removed) = l := by
  rw [List.filter_eq_self]
  intro a ha
  simp [h a ha]

theorem filter_removed_nil_of_all {l : List Slot} (h : ∀ s ∈ l, s.removed = false) :
    l.filter (fun s => s.removed) = [] := by
  rw [List.filter_eq_nil_iff]
  intro a ha
  simp [h a ha]

/-- C1: for every signal and every sequence of ss_connect_ex calls on it,
the subscription list is kept ordered by non-increasing priority with
insertion order preserved among equal priorities (among equal priorities the
handles, which are assigned in connection order, are ascending), and a
subsequent ss_emit invokes every non-tombstoned subscriber exactly once in
that list order (exactly once because the invocation list equals the
duplicate-free handle list).  The final conjunct checks the claim's example:
connect order NORMAL, CRITICAL, LOW, HIGH (handles 1,2,3,4) is invoked as
CRITICAL, HIGH, NORMAL, LOW (handles 2,4,1,3). -/
theorem C1_priority_order_and_dispatch (n : String) (p₀ : Int) (ps : List Int)
    (h0 : ¬ n.length = 0) (h1 : n.length < SS_MAX_SIGNAL_NAME_LENGTH) :
    C1Spec n p₀ ps ∧
    invokesOf ((ss_emit (fun _ => []) 10 "sig"
        (apply_connects "sig" [SS_PRIORITY_NORMAL, SS_PRIORITY_CRITICAL, SS_PRIORITY_LOW, SS_PRIORITY_HIGH]
          (ss_signal_register_ex "sig" none SS_PRIORITY_NORMAL initState).2)).2.log) = [2, 4, 1, 3] := by
  constructor
  · have HInv := apply_connects_C1Inv (register_C1Inv p₀ h0 h1) ps _ rfl
    obtain ⟨hpos, sig, hsigs, hname, hemit, hpair, hflags, hb, hnd⟩ := HInv
    obtain ⟨nm, ds, sl, sc, pr, em⟩ := sig
    simp only at hname hemit hpair hflags hb hnd
    subst hname
    subst hemit
    refine ⟨_, find_signal_singleton rfl hsigs, hpair, hnd, hflags, ?_⟩
    intro env henv fuel hfuel
    obtain ⟨Δ, hrun, hinv⟩ :=
      ss_emit_benign env hsigs hnd (fun s _ => Or.inl (henv s.func)) hfuel
    rw [hrun]
    refine ⟨rfl, ?_⟩
    simp only [filter_removed_nil_of_all hflags, List.map_nil, List.append_nil]
    rw [List.drop_left]
    simp only [invokesOf, List.filterMap_cons]
    rw [← invokesOf, hinv, filter_not_removed_of_all hflags]
  · decide

/-- Witness for C1 at the claim's example input. -/
theorem C1_priority_order_and_dispatch_witness :
    (¬ ("sig".length = 0) ∧ "sig".length < SS_MAX_SIGNAL_NAME_LENGTH) ∧
      C1Spec "sig" SS_PRIORITY_NORMAL
        [SS_PRIORITY_NORMAL, SS_PRIORITY_CRITICAL, SS_PRIORITY_LOW, SS_PRIORITY_HIGH] :=
  ⟨by decide,
   (C1_priority_order_and_dispatch "sig" SS_PRIORITY_NORMAL
     [SS_PRIORITY_NORMAL, SS_PRIORITY_CRITICAL, SS_PRIORITY_LOW, SS_PRIORITY_HIGH]
     (by decide) (by decide)).1⟩

/-- C10: ss_init is idempotent at the public interface.  When the global
context already exists (the argument is some st), a further ss_init returns
SS_OK and the context — registered signals, subscriptions, configuration,
the next-handle counter and the deferred queue — is exactly the state st it
held before the call. -/
theorem C10_init_idempotent (st : State) : ss_init (some st) = (SS_OK, some st) := rfl

/-- Counterexample to C6 as frozen: a name whose length equals the
configured maximum SS_MAX_SIGNAL_NAME_LENGTH (256 in the default build) does
NOT register successfully; ss_signal_register_ex rejects it with
SS_ERR_WOULD_OVERFLOW, because the fixed-width buffer needs one byte for the
terminator (the check is strlen(name) >= SS_MAX_SIGNAL_NAME_LENGTH). -/
theorem C6_max_length_counterexample :
    (ss_signal_register_ex (String.mk (List.replicate 256 'a')) none SS_PRIORITY_NORMAL initState).1 =
      SS_ERR_WOULD_OVERFLOW ∧
    (ss_signal_register_ex (String.mk (List.replicate 256 'a')) none SS_PRIORITY_NORMAL initState).1 ≠ SS_OK := by
  constructor <;> decide

/-- C6 (amended): a name of length SS_MAX_SIGNAL_NAME_LENGTH - 1 (255, the
longest storable) registers with SS_OK, and a name of length
SS_MAX_SIGNAL_NAME_LENGTH or more fails with SS_ERR_WOULD_OVERFLOW leaving
the whole registry state — the signal count and every signal — exactly as
before the call. -/
theorem C6_name_length_boundary (st : State) (desc : Option String) (prio : Int) :
    (∀ name : String, name.length = SS_MAX_SIGNAL_NAME_LENGTH - 1 →
      find_signal name st = none →
      (ss_signal_register_ex name desc prio st).1 = SS_OK) ∧
    (∀ name : String, SS_MAX_SIGNAL_NAME_LENGTH ≤ name.length →
      ss_signal_register_ex name desc prio st = (SS_ERR_WOULD_OVERFLOW, st)) := by
  constructor
  · intro name hlen hfind
    have h0 : ¬ name.length = 0 := by rw [hlen]; decide
    have h1 : ¬ SS_MAX_SIGNAL_NAME_LENGTH ≤ name.length := by rw [hlen]; decide
    simp [ss_signal_register_ex, h0, h1, hfind]
  · intro name hlen
    have h0 : ¬ name.length = 0 := by
      have : (0 : Nat) < SS_MAX_SIGNAL_NAME_LENGTH := by decide
      omega
    simp [ss_signal_register_ex, h0, hlen]

/-- Witness for the amended C6 at concrete 255- and 256-character names. -/
theorem C6_name_length_boundary_witness :
    ((String.mk (List.replicate 255 'a')).length = SS_MAX_SIGNAL_NAME_LENGTH - 1 ∧
      find_signal (String.mk (List.replicate 255 'a')) initState = none ∧
      SS_MAX_SIGNAL_NAME_LENGTH ≤ (String.mk (List.replicate 256 'a')).length) ∧
    (ss_signal_register_ex (String.mk (List.replicate 255 'a')) none SS_PRIORITY_NORMAL initState).1 = SS_OK ∧
    ss_signal_register_ex (String.mk (List.replicate 256 'a')) none SS_PRIORITY_NORMAL initState =
      (SS_ERR_WOULD_OVERFLOW, initState) :=
  ⟨by refine ⟨by decide, by decide, by decide⟩,
   (C6_name_length_boundary initState none SS_PRIORITY_NORMAL).1
     (String.mk (List.replicate 255 'a')) (by decide) (by decide),
   (C6_name_length_boundary initState none SS_PRIORITY_NORMAL).2
     (String.mk (List.replicate 256 'a')) (by decide)⟩

/-- C7 (code bug evidence): ss_emit_deferred and ss_emit_from_isr accept an
over-length name (300 characters against the 256-byte buffer), return SS_OK
and silently store the truncated 255-character name, because both call sites
discard ss_strscpy's truncation result (ss_lib.c lines 1444 and 680; so does
ss_batch_add at line 1521).  The spec requires every such operation to
reject over-length names with an error instead of truncating. -/
theorem C7_silent_truncation :
    (ss_emit_deferred (String.mk (List.replicate 300 'a')) initState).1 = SS_OK ∧
    (ss_emit_deferred (String.mk (List.replicate 300 'a')) initState).2.deferred_queue.getD 0 "" =
      String.mk (List.replicate 255 'a') ∧
    (ss_emit_from_isr (String.mk (List.replicate 300 'a')) 7 isr_queue_init).1 = SS_OK ∧
    (ss_emit_from_isr (String.mk (List.replicate 300 'a')) 7 isr_queue_init).2.head?.map
        (fun s => s.signal_name) = some (String.mk (List.replicate 255 'a')) ∧
    ss_strscpy_truncated (String.mk (List.replicate 300 'a')) SS_MAX_SIGNAL_NAME_LENGTH = true := by
  refine ⟨by decide, by decide, by decide, by decide, by decide⟩

theorem register_success_exists {name : String} {desc : Option String} {prio : Int}
    {st : State} (h : (ss_signal_register_ex name desc prio st).1 = SS_OK) :
    ss_signal_exists name (ss_signal_register_ex name desc prio st).2 = true := by
  by_cases h0 : name.length = 0
  · simp [ss_signal_register_ex, h0] at h
  by_cases h1 : SS_MAX_SIGNAL_NAME_LENGTH ≤ name.length
  · simp [ss_signal_register_ex, h0, h1] at h
  cases h2 : find_signal name st with
  | some sig => simp [ss_signal_register_ex, h0, h1, h2] at h
  | none =>
    have hres : (ss_signal_register_ex name desc prio st).2 =
        { st with signals := ⟨name, desc, [], 0, prio, 0⟩ :: st.signals,
                  signal_count := st.signal_count + 1 } := by
      simp [ss_signal_register_ex, h0, h1, h2]
    rw [hres]
    simp [ss_signal_exists, find_signal]

theorem removeSignal_find_none {name : String} {gs : List Signal}
    (huniq : gs.Pairwise (fun a b => a.name ≠ b.name)) :
    (removeSignal name gs).find? (fun sig => sig.name == name) = none := by
  induction gs with
  | nil => rfl
  | cons g rest ih =>
    by_cases hg : g.name = name
    · rw [removeSignal, if_pos (by simp [hg])]
      rw [List.find?_eq_none]
      intro a ha
      have hne := List.rel_of_pairwise_cons huniq ha
      simp only [beq_iff_eq]
      exact fun hEq => hne (hg.trans hEq.symm)
    · rw [removeSignal, if_neg (by simp [hg])]
      rw [List.find?_cons_of_neg _ (by simp [hg])]
      exact ih huniq.of_cons

theorem unregister_success_not_exists {name : String} {st : State}
    (huniq : st.signals.Pairwise (fun a b => a.name ≠ b.name))
    (h : (ss_signal_unregister name st).1 = SS_OK) :
    ss_signal_exists name (ss_signal_unregister name st).2 = false := by
  cases hfind : find_signal name st with
  | none => simp [ss_signal_unregister, hfind] at h
  | some sig =>
    have hfind' : List.find? (fun sig => sig.name == name) st.signals = some sig := hfind
    simp only [ss_signal_unregister, find_signal, hfind']
    simp [ss_signal_exists, find_signal, removeSignal_find_none huniq]

theorem register_existing {name : String} {desc : Option String} {prio : Int}
    {st : State} (hwf : WFNames st) (hex : ss_signal_exists name st = true) :
    ss_signal_register_ex name desc prio st = (SS_ERR_ALREADY_EXISTS, st) := by
  rw [ss_signal_exists] at hex
  cases hfind : find_signal name st with
  | none => rw [hfind] at hex; simp at hex
  | some sig =>
    have hfind' : List.find? (fun sg : Signal => sg.name == name) st.signals = some sig := hfind
    have hp := List.find?_some hfind'
    have hmem : sig ∈ st.signals := List.mem_of_find?_eq_some hfind'
    have hname : sig.name = name := by simpa using hp
    obtain ⟨hw0, hw1⟩ := hwf sig hmem
    rw [hname] at hw0 hw1
    simp [ss_signal_register_ex, hw0, Nat.not_le.mpr hw1, hfind]

/-- C8: for every state with well-formed unique names, (a) ss_signal_exists
is true immediately after a successful register of a name, (b) false
immediately after a successful unregister of it, and (c) registering an
already-registered name returns SS_ERR_ALREADY_EXISTS and returns the state
unchanged, so the existing signal's record (description, priority,
subscription list, counts) is untouched. -/
theorem C8_register_exists_unregister (name : String) (desc : Option String)
    (prio : Int) (st : State)
    (hwf : WFNames st)
    (huniq : st.signals.Pairwise (fun a b => a.name ≠ b.name)) :
    ((ss_signal_register_ex name desc prio st).1 = SS_OK →
      ss_signal_exists name (ss_signal_register_ex name desc prio st).2 = true) ∧
    ((ss_signal_unregister name st).1 = SS_OK →
      ss_signal_exists name (ss_signal_unregister name st).2 = false) ∧
    (ss_signal_exists name st = true →
      ss_signal_register_ex name desc prio st = (SS_ERR_ALREADY_EXISTS, st)) :=
  ⟨register_success_exists,
   unregister_success_not_exists huniq,
   register_existing hwf⟩

/-- Witness for C8: a registry holding the signal s, on which register
reports already-exists without change, unregister flips exists to false, and
a fresh register of t flips exists to true. -/
theorem C8_register_exists_unregister_witness :
    (WFNames (ss_signal_register_ex "s" none SS_PRIORITY_NORMAL initState).2 ∧
      (ss_signal_register_ex "s" none SS_PRIORITY_NORMAL initState).2.signals.Pairwise
        (fun a b => a.name ≠ b.name)) ∧
    ((ss_signal_register_ex "t" none SS_PRIORITY_NORMAL
        (ss_signal_register_ex "s" none SS_PRIORITY_NORMAL initState).2).1 = SS_OK →
      ss_signal_exists "t" (ss_signal_register_ex "t" none SS_PRIORITY_NORMAL
        (ss_signal_register_ex "s" none SS_PRIORITY_NORMAL initState).2).2 = true) ∧
    ((ss_signal_unregister "s" (ss_signal_register_ex "s" none SS_PRIORITY_NORMAL initState).2).1 = SS_OK →
      ss_signal_exists "s" (ss_signal_unregister "s"
        (ss_signal_register_ex "s" none SS_PRIORITY_NORMAL initState).2).2 = false) ∧
    (ss_signal_exists "s" (ss_signal_register_ex "s" none SS_PRIORITY_NORMAL initState).2 = true →
      ss_signal_register_ex "s" none SS_PRIORITY_NORMAL
          (ss_signal_register_ex "s" none SS_PRIORITY_NORMAL initState).2 =
        (SS_ERR_ALREADY_EXISTS, (ss_signal_register_ex "s" none SS_PRIORITY_NORMAL initState).2)) := by
  refine ⟨⟨by decide, by decide⟩, ?_, ?_, ?_⟩
  · exact (C8_register_exists_unregister "t" none SS_PRIORITY_NORMAL _ (by decide) (by decide)).1
  · exact (C8_register_exists_unregister "s" none SS_PRIORITY_NORMAL _ (by decide) (by decide)).2.1
  · exact (C8_register_exists_unregister "s" none SS_PRIORITY_NORMAL _ (by decide) (by decide)).2.2

theorem ss_strscpy_store_of_fit {src : String} {count : Nat} (h : src.length < count) :
    ss_strscpy_store src count = src := by
  have hlen : src.data.length ≤ count - 1 := by
    have hd : src.length = src.data.length := rfl
    omega
  rw [ss_strscpy_store, List.take_of_length_le hlen]

theorem isr_scan_first_free (name : String) (v : Int) (pre rest : List IsrSlot)
    (hpre : ∀ s ∈ pre, s.pending = true) :
    isr_scan name v (pre ++ isrFree :: rest) =
      (SS_OK, pre ++ { signal_name := ss_strscpy_store name SS_MAX_SIGNAL_NAME_LENGTH,
                       value := v, pending := true } :: rest) := by
  induction pre with
  | nil => simp [isr_scan, isrFree]
  | cons s ps ih =>
    have hs := hpre s (List.mem_cons_self s ps)
    simp [isr_scan, hs, ih (fun x hx => hpre x (List.mem_cons_of_mem s hx))]

theorem isr_scan_full (name : String) (v : Int) (q : List IsrSlot)
    (hq : ∀ s ∈ q, s.pending = true) :
    isr_scan name v q = (SS_ERR_WOULD_OVERFLOW, q) := by
  induction q with
  | nil => rfl
  | cons s ps ih =>
    have hs := hq s (List.mem_cons_self s ps)
    simp [isr_scan, hs, ih (fun x hx => hq x (List.mem_cons_of_mem s hx))]

theorem isr_capture_all_ok (entries : List (String × Int)) :
    ∀ (filled : List IsrSlot) (m : Nat), entries.length ≤ m →
      (∀ s ∈ filled, s.pending = true) →
      (∀ e ∈ entries, e.1.length < SS_MAX_SIGNAL_NAME_LENGTH) →
      isr_capture_all entries (filled ++ List.replicate m isrFree) =
        (List.replicate entries.length SS_OK,
         (filled ++ entries.map isrPendingOf) ++ List.replicate (m - entries.length) isrFree) := by
  induction entries with
  | nil =>
    intro filled m _ _ _
    simp [isr_capture_all]
  | cons e es ih =>
    intro filled m hm hfil hfit
    obtain ⟨m', rfl⟩ : ∃ m', m = m' + 1 := ⟨m - 1, by simp at hm; omega⟩
    rw [List.replicate_succ, isr_capture_all]
    have hscan := isr_scan_first_free e.1 e.2 filled (List.replicate m' isrFree) hfil
    rw [ss_emit_from_isr]
    rw [hscan]
    rw [ss_strscpy_store_of_fit (hfit e (List.mem_cons_self e es))]
    have hfil' : ∀ s ∈ filled ++ [isrPendingOf e], s.pending = true := by
      intro s hs
      rcases List.mem_append.mp hs with hs | hs
      · exact hfil s hs
      · rcases List.mem_singleton.mp hs with rfl
        rfl
    have hrec := ih (filled ++ [isrPendingOf e]) m' (by simp at hm; omega) hfil'
      (fun x hx => hfit x (List.mem_cons_of_mem e hx))
    rw [List.append_assoc] at hrec
    simp only [List.singleton_append, isrPendingOf] at hrec
    simp [hrec, isrPendingOf, Nat.succ_sub_succ, List.replicate_succ]

/-- C9: starting from the empty (zero-initialised) interrupt capture queue,
each of the first SS_ISR_QUEUE_SIZE calls to ss_emit_from_isr returns SS_OK
and stores the given name and integer value into the next free slot with the
pending flag set (the per-slot store ordering — name and value before the
release of the pending flag — collapses to one slot update in this
sequential model); and a call against a queue whose slots are all pending
returns SS_ERR_WOULD_OVERFLOW immediately, after one scan, with the queue
unchanged (no blocking, allocation or retry exists in the code path). -/
theorem C9_isr_capture_capacity (entries : List (String × Int))
    (hlen : entries.length ≤ SS_ISR_QUEUE_SIZE)
    (hfit : ∀ e ∈ entries, e.1.length < SS_MAX_SIGNAL_NAME_LENGTH) :
    isr_capture_all entries isr_queue_init =
      (List.replicate entries.length SS_OK,
       entries.map isrPendingOf ++ List.replicate (SS_ISR_QUEUE_SIZE - entries.length) isrFree) ∧
    (∀ (name : String) (v : Int) (q : List IsrSlot), (∀ s ∈ q, s.pending = true) →
      ss_emit_from_isr name v q = (SS_ERR_WOULD_OVERFLOW, q)) := by
  constructor
  · have := isr_capture_all_ok entries [] SS_ISR_QUEUE_SIZE hlen (by simp) hfit
    simpa [isr_queue_init, isrFree] using this
  · intro name v q hq
    rw [ss_emit_from_isr]
    exact isr_scan_full name v q hq

/-- Witness for C9: two captures fill the first two slots in order; a
fully pending queue overflows unchanged. -/
theorem C9_isr_capture_capacity_witness :
    (([("x", (1 : Int)), ("y", 2)] : List (String × Int)).length ≤ SS_ISR_QUEUE_SIZE ∧
      (∀ e ∈ ([("x", (1 : Int)), ("y", 2)] : List (String × Int)),
        e.1.length < SS_MAX_SIGNAL_NAME_LENGTH) ∧
      (∀ s ∈ List.replicate SS_ISR_QUEUE_SIZE (isrPendingOf ("z", 3)), s.pending = true)) ∧
    isr_capture_all [("x", (1 : Int)), ("y", 2)] isr_queue_init =
      (List.replicate 2 SS_OK,
       [isrPendingOf ("x", 1), isrPendingOf ("y", 2)] ++
         List.replicate (SS_ISR_QUEUE_SIZE - 2) isrFree) ∧
    ss_emit_from_isr "w" 4 (List.replicate SS_ISR_QUEUE_SIZE (isrPendingOf ("z", 3))) =
      (SS_ERR_WOULD_OVERFLOW, List.replicate SS_ISR_QUEUE_SIZE (isrPendingOf ("z", 3))) :=
  ⟨⟨by decide, by decide, by decide⟩,
   (C9_isr_capture_capacity [("x", 1), ("y", 2)] (by decide) (by decide)).1,
   (C9_isr_capture_capacity [("x", 1), ("y", 2)] (by decide) (by decide)).2
     "w" 4 (List.replicate SS_ISR_QUEUE_SIZE (isrPendingOf ("z", 3))) (by decide)⟩

theorem ss_disconnect_handle_not_found {h : Nat} (h0 : ¬ h = 0) {st : State}
    (hab : ∀ sig ∈ st.signals, ∀ s ∈ sig.slots, s.handle ≠ h) :
    ss_disconnect_handle h st = (SS_ERR_NOT_FOUND, st) := by
  simp [ss_disconnect_handle, h0, disconnect_in_signals_none hab]

theorem disconnect_in_slots_found_quiet (h : Nat) (a b : List Slot) (s : Slot)
    (hs : s.handle = h) (ha : ∀ x ∈ a, x.handle ≠ h) :
    disconnect_in_slots h 0 (a ++ s :: b) =
      some (a ++ b, [Event.freeSlot s.handle 0], true) := by
  induction a with
  | nil => simp [disconnect_in_slots, hs]
  | cons x xs ih =>
    have hx : x.handle ≠ h := ha x (List.mem_cons_self x xs)
    simp [disconnect_in_slots, hx, ih (fun y hy => ha y (List.mem_cons_of_mem x hy))]

theorem disconnect_in_slots_found_emitting {em : Nat} (hem : em ≠ 0) (h : Nat)
    (a b : List Slot) (s : Slot) (hs : s.handle = h) (ha : ∀ x ∈ a, x.handle ≠ h) :
    disconnect_in_slots h em (a ++ s :: b) =
      some (a ++ ({ s with removed := true }) :: b, [], false) := by
  induction a with
  | nil => simp [disconnect_in_slots, hs, hem]
  | cons x xs ih =>
    have hx : x.handle ≠ h := ha x (List.mem_cons_self x xs)
    simp [disconnect_in_slots, hx, ih (fun y hy => ha y (List.mem_cons_of_mem x hy))]

theorem disconnect_in_signals_found (h : Nat) (pre : List Signal) (sig : Signal)
    (post : List Signal) {slots : List Slot} {evs : List Event} {freed : Bool}
    (hpre : ∀ g ∈ pre, ∀ x ∈ g.slots, x.handle ≠ h)
    (hres : disconnect_in_slots h sig.emitting sig.slots = some (slots, evs, freed)) :
    disconnect_in_signals h (pre ++ sig :: post) =
      some (pre ++ (if freed then { sig with slots := slots, slot_count := sig.slot_count - 1 }
                    else { sig with slots := slots }) :: post, evs) := by
  induction pre with
  | nil => simp [disconnect_in_signals, hres]
  | cons g gs ih =>
    have hg : disconnect_in_slots h g.emitting g.slots = none :=
      disconnect_in_slots_none (hpre g (List.mem_cons_self g gs))
    simp [disconnect_in_signals, hg,
      ih (fun x hx => hpre x (List.mem_cons_of_mem g hx))]

/-- C5 (amended): for a handle h held by exactly one subscription, if no
emission of the owning signal is in progress when the calls are made, then
ss_disconnect_handle h returns SS_OK exactly once — it physically removes
the subscription — and every further call with the now-stale handle returns
SS_ERR_NOT_FOUND and leaves the state untouched. -/
theorem C5_disconnect_handle_round_trip (h : Nat) (st : State)
    (pre post : List Signal) (sig : Signal) (a b : List Slot) (s : Slot)
    (h0 : ¬ h = 0)
    (hsigs : st.signals = pre ++ sig :: post)
    (hslots : sig.slots = a ++ s :: b)
    (hs : s.handle = h)
    (hquiet : sig.emitting = 0)
    (hother : ∀ g ∈ pre ++ post, ∀ x ∈ g.slots, x.handle ≠ h)
    (hrest : ∀ x ∈ a ++ b, x.handle ≠ h) :
    ss_disconnect_handle h st =
      (SS_OK, { st with signals := pre ++ ({ sig with slots := a ++ b, slot_count := sig.slot_count - 1 }) :: post,
                        log := st.log ++ [Event.freeSlot h 0] }) ∧
    ss_disconnect_handle h (ss_disconnect_handle h st).2 =
      (SS_ERR_NOT_FOUND, (ss_disconnect_handle h st).2) := by
  have hres : disconnect_in_slots h sig.emitting sig.slots =
      some (a ++ b, [Event.freeSlot s.handle 0], true) := by
    rw [hquiet, hslots]
    exact disconnect_in_slots_found_quiet h a b s hs
      (fun x hx => hrest x (List.mem_append_left b hx))
  have hfirst : ss_disconnect_handle h st =
      (SS_OK, { st with signals := pre ++ ({ sig with slots := a ++ b, slot_count := sig.slot_count - 1 }) :: post,
                        log := st.log ++ [Event.freeSlot h 0] }) := by
    have hsig := disconnect_in_signals_found h pre sig post
      (fun g hg => hother g (List.mem_append_left post hg)) hres
    rw [ss_disconnect_handle, if_neg (by simpa using h0), hsigs, hsig]
    simp [hs]
  refine ⟨hfirst, ?_⟩
  rw [hfirst]
  apply ss_disconnect_handle_not_found h0
  intro g hg x hx
  simp only [List.mem_append, List.mem_cons] at hg
  rcases hg with hg | hg | hg
  · exact hother g (List.mem_append_left post hg) x hx
  · subst hg
    simp only at hx
    exact hrest x hx
  · exact hother g (List.mem_append_right pre hg) x hx

/-- Counterexample to C5 as frozen: ss_connect_ex hands out handle 1, and
during a single emission whose handler calls ss_disconnect_handle 1 twice,
BOTH calls return SS_OK (the scan matches on the handle without consulting
the removed flag, and while the signal is emitting the node is only
tombstoned, so it is still found), contradicting "returns OK exactly once
over the handle's lifetime".  The ghost discResult events record the return
codes of the two in-handler calls. -/
theorem C5_double_ok_counterexample :
    (ss_connect_ex "s" 1 0 5 (ss_signal_register_ex "s" none 5 initState).2).2.1 = some 1 ∧
    ((ss_emit (fun fid => if fid == 1 then [Cmd.disconnectHandle 1, Cmd.disconnectHandle 1] else [])
        10 "s" (ss_connect_ex "s" 1 0 5 (ss_signal_register_ex "s" none 5 initState).2).2.2).2.log.count
      (Event.discResult 1 SS_OK)) = 2 := by
  exact ⟨by decide, by decide⟩

/-- Witness for the amended C5 on a one-signal, one-subscription registry. -/
theorem C5_disconnect_handle_round_trip_witness :
    (¬ (1 : Nat) = 0 ∧
      (ss_connect_ex "s" 1 0 5 (ss_signal_register_ex "s" none 5 initState).2).2.2.signals =
        [] ++ ⟨"s", none, [⟨1, 0, 5, 1, false⟩], 1, 5, 0⟩ :: []) ∧
    ss_disconnect_handle 1 (ss_connect_ex "s" 1 0 5 (ss_signal_register_ex "s" none 5 initState).2).2.2 =
      (SS_OK, { (ss_connect_ex "s" 1 0 5 (ss_signal_register_ex "s" none 5 initState).2).2.2 with
          signals := [] ++ ({ (⟨"s", none, [⟨1, 0, 5, 1, false⟩], 1, 5, 0⟩ : Signal) with
            slots := [] ++ [], slot_count := 1 - 1 }) :: [],
          log := (ss_connect_ex "s" 1 0 5 (ss_signal_register_ex "s" none 5 initState).2).2.2.log ++
            [Event.freeSlot 1 0] }) ∧
    ss_disconnect_handle 1
        (ss_disconnect_handle 1 (ss_connect_ex "s" 1 0 5 (ss_signal_register_ex "s" none 5 initState).2).2.2).2 =
      (SS_ERR_NOT_FOUND,
        (ss_disconnect_handle 1 (ss_connect_ex "s" 1 0 5 (ss_signal_register_ex "s" none 5 initState).2).2.2).2) := by
  refine ⟨⟨by decide, by decide⟩, ?_, ?_⟩
  · exact (C5_disconnect_handle_round_trip 1 _ [] [] ⟨"s", none, [⟨1, 0, 5, 1, false⟩], 1, 5, 0⟩
      [] [] ⟨1, 0, 5, 1, false⟩ (by decide) (by decide) (by decide) (by decide) (by decide)
      (by decide) (by decide)).1
  · exact (C5_disconnect_handle_round_trip 1 _ [] [] ⟨"s", none, [⟨1, 0, 5, 1, false⟩], 1, 5, 0⟩
      [] [] ⟨1, 0, 5, 1, false⟩ (by decide) (by decide) (by decide) (by decide) (by decide)
      (by decide) (by decide)).2

theorem GoodLog.rfl (st : State) : GoodLog st st :=
  ⟨[], by simp, by simp [GoodEvs]⟩

theorem GoodLog.of_log_eq {st t : State} (h : t.log = st.log) : GoodLog st t :=
  ⟨[], by simp [h], by simp [GoodEvs]⟩

theorem GoodLog.trans {s t u : State} (h₁ : GoodLog s t) (h₂ : GoodLog t u) :
    GoodLog s u := by
  obtain ⟨Δ₁, he₁, hg₁⟩ := h₁
  obtain ⟨Δ₂, he₂, hg₂⟩ := h₂
  refine ⟨Δ₁ ++ Δ₂, by rw [he₂, he₁, List.append_assoc], ?_⟩
  intro e he
  rcases List.mem_append.mp he with he | he
  · exact hg₁ e he
  · exact hg₂ e he

theorem GoodLog.append {st t : State} (Δ : List Event) (h : t.log = st.log ++ Δ)
    (hΔ : GoodEvs Δ) : GoodLog st t := ⟨Δ, h, hΔ⟩

theorem goodEvs_nil : GoodEvs [] := by simp [GoodEvs]

theorem goodEvs_nonfree_cons {Δ : List Event} (e : Event)
    (he : ∀ h d, e ≠ Event.freeSlot h d) (hΔ : GoodEvs Δ) : GoodEvs (e :: Δ) := by
  intro x hx h d hxe
  rcases List.mem_cons.mp hx with rfl | hx
  · exact absurd hxe (he h d)
  · exact hΔ x hx h d hxe

theorem goodEvs_disconnect_slots {h em : Nat} :
    ∀ {l slots : List Slot} {evs : List Event} {freed : Bool},
      disconnect_in_slots h em l = some (slots, evs, freed) → GoodEvs evs := by
  intro l
  induction l with
  | nil => intro slots evs freed hres; exact absurd hres (by simp [disconnect_in_slots])
  | cons s rest ih =>
    intro slots evs freed hres
    rw [disconnect_in_slots] at hres
    by_cases hsh : (s.handle == h) = true
    · rw [if_pos hsh] at hres
      by_cases hem : em ≠ 0
      · rw [if_pos hem] at hres
        obtain ⟨-, rfl, -⟩ := Prod.mk.injEq .. ▸ (Option.some.injEq .. ▸ hres :)
        exact goodEvs_nil
      · rw [if_neg hem] at hres
        have hem0 : em = 0 := by omega
        obtain ⟨-, rfl, -⟩ := Prod.mk.injEq .. ▸ (Option.some.injEq .. ▸ hres :)
        intro e he h d hxe
        rcases List.mem_singleton.mp he with rfl
        rw [Event.freeSlot.injEq] at hxe
        omega
    · rw [if_neg hsh] at hres
      cases hrec : disconnect_in_slots h em rest with
      | none => rw [hrec] at hres; exact absurd hres (by simp)
      | some r =>
        rw [hrec] at hres
        simp only [Option.map_some', Option.some.injEq] at hres
        obtain ⟨r1, r2, r3⟩ := r
        have : evs = r2 := by
          have := congrArg (fun p => p.2.1) hres
          simpa using this.symm
        exact this ▸ ih hrec

theorem goodEvs_disconnect_signals {h : Nat} :
    ∀ {gs gs' : List Signal} {evs : List Event},
      disconnect_in_signals h gs = some (gs', evs) → GoodEvs evs := by
  intro gs
  induction gs with
  | nil => intro gs' evs hres; exact absurd hres (by simp [disconnect_in_signals])
  | cons g rest ih =>
    intro gs' evs hres
    rw [disconnect_in_signals] at hres
    cases hslot : disconnect_in_slots h g.emitting g.slots with
    | some r =>
      obtain ⟨r1, r2, r3⟩ := r
      rw [hslot] at hres
      simp only [Option.some.injEq] at hres
      have : evs = r2 := by
        have := congrArg (fun p => p.2) hres
        simpa using this.symm
      exact this ▸ goodEvs_disconnect_slots hslot
    | none =>
      rw [hslot] at hres
      cases hrec : disconnect_in_signals h rest with
      | none => rw [hrec] at hres; exact absurd hres (by simp)
      | some r =>
        rw [hrec] at hres
        simp only [Option.map_some', Option.some.injEq] at hres
        obtain ⟨r1, r2⟩ := r
        have : evs = r2 := by
          have := congrArg (fun p => p.2) hres
          simpa using this.symm
        exact this ▸ ih hrec

theorem goodLog_disconnect_handle (h : Nat) (st : State) :
    GoodLog st (ss_disconnect_handle h st).2 := by
  rw [ss_disconnect_handle]
  by_cases h0 : (h == 0) = true
  · rw [if_pos h0]; exact GoodLog.rfl st
  · rw [if_neg h0]
    cases hres : disconnect_in_signals h st.signals with
    | none => exact GoodLog.rfl st
    | some r =>
      obtain ⟨gs', evs⟩ := r
      exact GoodLog.append evs rfl (goodEvs_disconnect_signals hres)

theorem goodEvs_disconnect_fn_slots {fid em : Nat} :
    ∀ {l slots : List Slot} {evs : List Event} {freed : Bool},
      disconnect_fn_slots fid em l = some (slots, evs, freed) → GoodEvs evs := by
  intro l
  induction l with
  | nil => intro slots evs freed hres; exact absurd hres (by simp [disconnect_fn_slots])
  | cons s rest ih =>
    intro slots evs freed hres
    rw [disconnect_fn_slots] at hres
    by_cases hsh : (s.func == fid && !s.removed) = true
    · rw [if_pos hsh] at hres
      by_cases hem : em ≠ 0
      · rw [if_pos hem] at hres
        obtain ⟨-, rfl, -⟩ := Prod.mk.injEq .. ▸ (Option.some.injEq .. ▸ hres :)
        exact goodEvs_nil
      · rw [if_neg hem] at hres
        obtain ⟨-, rfl, -⟩ := Prod.mk.injEq .. ▸ (Option.some.injEq .. ▸ hres :)
        intro e he h d hxe
        rcases List.mem_singleton.mp he with rfl
        rw [Event.freeSlot.injEq] at hxe
        omega
    · rw [if_neg hsh] at hres
      cases hrec : disconnect_fn_slots fid em rest with
      | none => rw [hrec] at hres; exact absurd hres (by simp)
      | some r =>
        rw [hrec] at hres
        simp only [Option.map_some', Option.some.injEq] at hres
        obtain ⟨r1, r2, r3⟩ := r
        have : evs = r2 := by
          have := congrArg (fun p => p.2.1) hres
          simpa using this.symm
        exact this ▸ ih hrec

theorem goodLog_disconnect_fn (n : String) (fid : Nat) (st : State) :
    GoodLog st (ss_disconnect n fid st).2 := by
  rw [ss_disconnect]
  cases hf : find_signal n st with
  | none => simp only [hf]; exact GoodLog.rfl st
  | some sig =>
    simp only [hf]
    cases hres : disconnect_fn_slots fid sig.emitting sig.slots with
    | none => simp only [hres]; exact GoodLog.rfl st
    | some r =>
      obtain ⟨slots, evs, freed⟩ := r
      simp only [hres]
      exact GoodLog.append evs rfl (goodEvs_disconnect_fn_slots hres)

theorem goodLog_disconnect_all (n : String) (st : State) :
    GoodLog st (ss_disconnect_all n st).2 := by
  rw [ss_disconnect_all]
  cases hf : find_signal n st with
  | none => simp only [hf]; exact GoodLog.rfl st
  | some sig =>
    simp only [hf]
    by_cases hem : sig.emitting ≠ 0
    · rw [if_pos hem]
      exact GoodLog.of_log_eq rfl
    · rw [if_neg hem]
      have hem0 : sig.emitting = 0 := by omega
      refine GoodLog.append _ rfl ?_
      intro e he h d hxe
      rcases List.mem_map.mp he with ⟨sl, hsl, rfl⟩
      cases hxe
      exact hem0

theorem goodLog_register (name : String) (desc : Option String) (prio : Int)
    (st : State) : GoodLog st (ss_signal_register_ex name desc prio st).2 := by
  rw [ss_signal_register_ex]
  apply GoodLog.of_log_eq
  split_ifs <;> rfl

theorem goodLog_connect (name : String) (fid ud : Nat) (prio : Int) (st : State) :
    GoodLog st (ss_connect_ex name fid ud prio st).2.2 := by
  rw [ss_connect_ex]
  apply GoodLog.of_log_eq
  cases hf : find_signal name st with
  | none => simp only [hf]
  | some sig =>
    simp only [hf]
    split_ifs <;> rfl

theorem goodLog_defer (name : String) (st : State) :
    GoodLog st (ss_emit_deferred name st).2 := by
  rw [ss_emit_deferred]
  apply GoodLog.of_log_eq
  split_ifs <;> rfl

theorem goodLog_emit_finish (n : String) (st : State) :
    GoodLog st (emit_finish n st) := by
  rw [emit_finish]
  cases hf : find_signal n st with
  | none => simp only [hf]; exact GoodLog.of_log_eq rfl
  | some sig =>
    simp only [hf]
    by_cases hz : (({ sig with emitting := sig.emitting - 1 } : Signal).emitting == 0) = true
    · rw [if_pos hz]
      refine GoodLog.append _ rfl ?_
      intro e he h d hxe
      rcases List.mem_map.mp he with ⟨sl, hsl, rfl⟩
      cases hxe
      simpa using hz
    · rw [if_neg hz]
      exact GoodLog.of_log_eq rfl

theorem step_goodLog (env : Env) (henv : EnvNoUnreg env) :
    ∀ (fuel : Nat) (call : Call) (st : State), CallOK call →
      GoodLog st (step env fuel call st).2 := by
  intro fuel
  induction fuel with
  | zero => intro call st _; exact GoodLog.rfl st
  | succ f ih =>
    intro call st hok
    cases call with
    | emit name =>
      rw [step]
      cases hf : find_signal name { st with log := st.log ++ [Event.emitCall name] } with
      | none =>
        simp only [hf]
        exact GoodLog.append [Event.emitCall name] rfl
          (goodEvs_nonfree_cons _ (by intro h d hEq; exact absurd hEq (by simp)) goodEvs_nil)
      | some sig =>
        simp only [hf]
        have g2 : GoodLog st ({ { st with log := st.log ++ [Event.emitCall name] } with
              signals := updateSignal name (fun s => { s with emitting := s.emitting + 1 })
                ({ st with log := st.log ++ [Event.emitCall name] } : State).signals } : State) :=
          GoodLog.append [Event.emitCall name] rfl
            (goodEvs_nonfree_cons _ (by intro h d hEq; exact absurd hEq (by simp)) goodEvs_nil)
        refine GoodLog.trans g2 ?_
        refine GoodLog.trans (ih (Call.walk name (sig.slots.head?.map (fun s => s.handle))) _ trivial) ?_
        exact goodLog_emit_finish name _
    | walk name cur =>
      cases cur with
      | none => rw [step]; exact GoodLog.rfl st
      | some h =>
        rw [step]
        cases hf : find_signal name st with
        | none => simp only [hf]; exact GoodLog.of_log_eq rfl
        | some sig =>
          simp only [hf]
          cases hfs : find_slot_with_next h sig.slots with
          | none => simp only [hfs]; exact GoodLog.of_log_eq rfl
          | some r =>
            obtain ⟨s, nxt⟩ := r
            simp only [hfs]
            by_cases hrem : s.removed
            · rw [if_pos hrem]
              exact ih (Call.walk name nxt) st trivial
            · rw [if_neg hrem]
              refine GoodLog.trans ?_ (ih (Call.walk name nxt) _ trivial)
              refine GoodLog.trans (GoodLog.append
                (t := { st with log := st.log ++ [Event.invoke h] }) [Event.invoke h] rfl
                (goodEvs_nonfree_cons _ (by intro h d hEq; exact absurd hEq (by simp)) goodEvs_nil)) ?_
              exact ih (Call.cmds (env s.func)) _ (henv s.func)
    | cmds cs =>
      cases cs with
      | nil => rw [step]; exact GoodLog.rfl st
      | cons c cs =>
        rw [step]
        refine GoodLog.trans (ih (Call.cmd c) st (hok c (List.mem_cons_self c cs))) ?_
        exact ih (Call.cmds cs) _ (fun x hx => hok x (List.mem_cons_of_mem c hx))
    | cmd c =>
      cases c with
      | reg name prio => rw [step]; exact goodLog_register name none prio st
      | connect name fid prio => rw [step]; exact goodLog_connect name fid 0 prio st
      | emit name => rw [step]; exact ih (Call.emit name) st trivial
      | disconnectHandle h =>
        rw [step]
        refine GoodLog.trans (goodLog_disconnect_handle h st) ?_
        exact GoodLog.append [Event.discResult h (ss_disconnect_handle h st).1] rfl
          (goodEvs_nonfree_cons _ (by intro h d hEq; exact absurd hEq (by simp)) goodEvs_nil)
      | disconnectFn name fid => rw [step]; exact goodLog_disconnect_fn name fid st
      | disconnectAll name => rw [step]; exact goodLog_disconnect_all name st
      | unregister name => exact absurd hok (by simp [CallOK, Cmd.noUnreg])
      | deferEmit name => rw [step]; exact goodLog_defer name st
      | flushDeferred => rw [step]; exact ih Call.flush st trivial
    | flush =>
      rw [step]
      refine GoodLog.trans (GoodLog.of_log_eq (t := { st with deferred_count := 0 }) rfl) ?_
      exact ih (Call.floop 0 st.deferred_count SS_OK) _ trivial
    | floop i c acc =>
      rw [step]
      by_cases hic : i < c
      · rw [if_pos hic]
        refine GoodLog.trans (ih (Call.emit (st.deferred_queue.getD i "")) st trivial) ?_
        exact ih (Call.floop (i + 1) c _) _ trivial
      · rw [if_neg hic]
        exact GoodLog.rfl st

/-- Counterexample to C3 as frozen: ss_signal_unregister frees the
subscriptions of a signal unconditionally, without consulting the
emitting-depth counter.  In this trace the only handler of signal s calls
ss_signal_unregister s while the emission of s is in progress: the ghost log
records the physical free of subscription handle 1 at emitting depth 1, and
the model marks the continuation as undefined (ub = true), matching the
use-after-free the C code then commits on the freed slot list. -/
theorem C3_unregister_frees_mid_emission :
    Event.freeSlot 1 1 ∈
      (ss_emit (fun fid => if fid == 2 then [Cmd.unregister "s"] else []) 10 "s"
        (ss_connect_ex "s" 2 0 5 (ss_signal_register_ex "s" none 5 initState).2).2.2).2.log ∧
    (ss_emit (fun fid => if fid == 2 then [Cmd.unregister "s"] else []) 10 "s"
        (ss_connect_ex "s" 2 0 5 (ss_signal_register_ex "s" none 5 initState).2).2.2).2.ub = true :=
  ⟨by decide, by decide⟩

/-- C3 (amended): for every state and every emit, disconnect-by-handle,
disconnect-by-function, disconnect-all or deferred flush — with handler
scripts that may reenter any of these but never call ss_signal_unregister —
every subscription that is physically freed is freed at emitting depth zero
(removal during an emission only tombstones; the sweep runs when the
outermost emission completes).  ss_signal_unregister is excluded: it frees
the signal's subscriptions whatever the depth and is serialised against
emission only by the registry lock. -/
theorem C3_frees_only_at_depth_zero (env : Env) (henv : EnvNoUnreg env) (fuel : Nat) :
    (∀ (name : String) (st : State), GoodLog st (ss_emit env fuel name st).2) ∧
    (∀ (h : Nat) (st : State), GoodLog st (ss_disconnect_handle h st).2) ∧
    (∀ (name : String) (fid : Nat) (st : State), GoodLog st (ss_disconnect name fid st).2) ∧
    (∀ (name : String) (st : State), GoodLog st (ss_disconnect_all name st).2) ∧
    (∀ st : State, GoodLog st (ss_flush_deferred env fuel st).2) :=
  ⟨fun name st => step_goodLog env henv fuel (Call.emit name) st trivial,
   fun h st => goodLog_disconnect_handle h st,
   fun name fid st => goodLog_disconnect_fn name fid st,
   fun name st => goodLog_disconnect_all name st,
   fun st => step_goodLog env henv fuel Call.flush st trivial⟩

/-- Witness for the amended C3 with the empty-script environment. -/
theorem C3_frees_only_at_depth_zero_witness :
    EnvNoUnreg (fun _ => ([] : List Cmd)) ∧
    GoodLog initState (ss_emit (fun _ => []) 5 "s" initState).2 :=
  ⟨fun _ c hc => absurd hc (List.not_mem_nil c),
   (C3_frees_only_at_depth_zero (fun _ => [])
     (fun _ c hc => absurd hc (List.not_mem_nil c)) 5).1 "s" initState⟩

/-- C4 (code bug evidence): with entries a, b queued, ss_flush_deferred
snapshots count 2 and zeroes the count, but its loop reads the LIVE array:
the handler of a enqueues c and d, which are written at indices 0 and 1 of
the same array, so iteration i = 1 replays entry d instead of the
snapshotted b.  The flush emits a then d (the claim requires a then b);
entry b is lost and never emitted by any flush, while d — enqueued DURING
the flush — is emitted both by this flush and again by the next one, which
replays c, d.  The flush still returns SS_OK. -/
theorem C4_flush_overwrites_pending_entries :
    c4_state.deferred_count = 2 ∧
    c4_state.deferred_queue.getD 0 "" = "a" ∧
    c4_state.deferred_queue.getD 1 "" = "b" ∧
    (ss_flush_deferred c4_env 10 c4_state).1 = SS_OK ∧
    emitCallsOf (ss_flush_deferred c4_env 10 c4_state).2.log = ["a", "d"] ∧
    emitCallsOf (ss_flush_deferred c4_env 10 c4_state).2.log ≠ ["a", "b"] ∧
    (ss_flush_deferred c4_env 10 c4_state).2.deferred_count = 2 ∧
    emitCallsOf ((ss_flush_deferred c4_env 10 (ss_flush_deferred c4_env 10 c4_state).2).2.log.drop
        (ss_flush_deferred c4_env 10 c4_state).2.log.length) = ["c", "d"] :=
  ⟨by decide, by decide, by decide, by decide, by decide, by decide, by decide, by decide⟩

theorem emit_walk_noop_segment (env : Env) {n : String} {sig : Signal} (hn : sig.name = n)
    (hnd : (sig.slots.map (fun x => x.handle)).Nodup) :
    ∀ (mid done rest : List Slot) (st : State) (fuel : Nat),
      st.signals = [sig] → sig.slots = done ++ (mid ++ rest) →
      (∀ s ∈ mid, env s.func = [] ∧ s.removed = false) →
      mid.length ≤ fuel →
      emit_walk env fuel n ((mid ++ rest).head?.map (fun x => x.handle)) st =
        emit_walk env (fuel - mid.length) n (rest.head?.map (fun x => x.handle))
          { st with log := st.log ++ mid.map (fun s => Event.invoke s.handle) } := by
  intro mid
  induction mid with
  | nil =>
    intro done rest st fuel _ _ _ _
    simp
  | cons s mid ih =>
    intro done rest st fuel hsigs hsplit hmid hfuel
    obtain ⟨f, rfl⟩ : ∃ f, fuel = f + 1 := ⟨fuel - 1, by simp at hfuel; omega⟩
    have hfind := find_signal_singleton hn hsigs
    have hdone : ∀ x ∈ done, x.handle ≠ s.handle := by
      intro x hx
      have hnd' := hnd
      rw [hsplit, List.map_append, List.nodup_append] at hnd'
      intro hEq
      exact hnd'.2.2 (List.mem_map_of_mem _ hx) (by simp [hEq])
    have hfsn : find_slot_with_next s.handle sig.slots =
        some (s, (mid ++ rest).head?.map (fun x => x.handle)) := by
      rw [hsplit, List.cons_append]
      exact find_slot_with_next_eq done (mid ++ rest) rfl hdone
    have hstep := emit_walk_cons env f n s.handle st hfind hfsn
    simp only [List.cons_append, List.head?_cons, Option.map_some']
    rw [hstep, if_neg (by simp [(hmid s (List.mem_cons_self s mid)).2]),
      (hmid s (List.mem_cons_self s mid)).1, runCmds_nil]
    have := ih (done ++ [s]) rest { st with log := st.log ++ [Event.invoke s.handle] } f
      (by simp [hsigs]) (by rw [hsplit]; simp) (fun x hx => hmid x (List.mem_cons_of_mem s hx))
      (by simp at hfuel; omega)
    rw [this]
    simp

theorem head_map_handle_mark (P Q : List Slot) (s : Slot) :
    ((P ++ ({ s with removed := true }) :: Q).head?.map (fun x => x.handle)) =
      ((P ++ s :: Q).head?.map (fun x => x.handle)) := by
  cases P <;> simp

theorem map_handle_mark (P Q : List Slot) (s : Slot) :
    ((P ++ ({ s with removed := true }) :: Q).map (fun x => x.handle)) =
      ((P ++ s :: Q).map (fun x => x.handle)) := by
  simp

theorem mem_handle_unique {l : List Slot} (hnd : (l.map (fun x => x.handle)).Nodup)
    {s t : Slot} (hs : s ∈ l) (ht : t ∈ l) (hh : s.handle = t.handle) : s = t := by
  induction l with
  | nil => cases hs
  | cons a rest ih =>
    rw [List.map_cons, List.nodup_cons] at hnd
    rcases List.mem_cons.mp hs with hsa | hs <;> rcases List.mem_cons.mp ht with hta | ht
    · rw [hsa, hta]
    · exfalso
      apply hnd.1
      have hmem : t.handle ∈ rest.map (fun x => x.handle) := List.mem_map_of_mem _ ht
      rw [hsa] at hh
      rw [hh]
      exact hmem
    · exfalso
      apply hnd.1
      have hmem : s.handle ∈ rest.map (fun x => x.handle) := List.mem_map_of_mem _ hs
      rw [hta] at hh
      rw [← hh]
      exact hmem
    · exact ih hnd.2 hs ht

theorem filter_ne_handle_of_not_mem {hT : Nat} {X : List Slot}
    (h : hT ∉ X.map (fun x => x.handle)) :
    X.filter (fun s => s.handle != hT) = X := by
  rw [List.filter_eq_self]
  intro a ha
  simp only [bne_iff_ne, ne_eq, decide_eq_true_eq]
  intro hEq
  exact h (hEq ▸ List.mem_map_of_mem _ ha)

theorem markHandle_handle (hT : Nat) (s : Slot) : (markHandle hT s).handle = s.handle := by
  rw [markHandle]
  split <;> rfl

theorem markHandle_func (hT : Nat) (s : Slot) : (markHandle hT s).func = s.func := by
  rw [markHandle]
  split <;> rfl

theorem map_markHandle_head (hT : Nat) (B : List Slot) :
    ((B.map (markHandle hT)).head?.map (fun x => x.handle)) =
      B.head?.map (fun x => x.handle) := by
  cases B with
  | nil => rfl
  | cons b rest => simp [markHandle_handle]

theorem map_markHandle_handles (hT : Nat) (l : List Slot) :
    (l.map (markHandle hT)).map (fun x => x.handle) = l.map (fun x => x.handle) := by
  simp [List.map_map, Function.comp_def, markHandle_handle]

theorem map_markHandle_id {hT : Nat} {X : List Slot}
    (h : hT ∉ X.map (fun x => x.handle)) : X.map (markHandle hT) = X := by
  induction X with
  | nil => rfl
  | cons s rest ih =>
    simp only [List.map_cons, List.mem_cons, not_or] at h ⊢
    rw [markHandle, if_neg (by simp; exact fun hEq => h.1 hEq.symm), ih h.2]

theorem disconnect_in_slots_mark {em : Nat} (hem : em ≠ 0) (hT : Nat) :
    ∀ {l : List Slot}, (l.map (fun x => x.handle)).Nodup →
      hT ∈ l.map (fun x => x.handle) →
      disconnect_in_slots hT em l = some (l.map (markHandle hT), [], false) := by
  intro l
  induction l with
  | nil => intro _ hmem; cases hmem
  | cons s rest ih =>
    intro hnd hmem
    rw [List.map_cons, List.nodup_cons] at hnd
    by_cases hs : s.handle = hT
    · have hrest : hT ∉ rest.map (fun x => x.handle) := hs ▸ hnd.1
      rw [disconnect_in_slots, if_pos (by simp [hs]), if_pos hem, List.map_cons,
        markHandle, if_pos (by simp [hs]), map_markHandle_id hrest]
    · have hmem' : hT ∈ rest.map (fun x => x.handle) := by
        rcases List.mem_cons.mp hmem with h | h
        · exact absurd h.symm hs
        · exact h
      rw [disconnect_in_slots, if_neg (by simp [hs]), ih hnd.2 hmem', Option.map_some']
      rw [List.map_cons, markHandle, if_neg (by simp [hs])]

theorem filter_not_removed_map_mark {hT : Nat} {B : List Slot}
    (hflags : ∀ s ∈ B, s.removed = false) :
    (B.map (markHandle hT)).filter (fun s => !s.removed) =
      B.filter (fun s => s.handle != hT) := by
  induction B with
  | nil => rfl
  | cons s rest ih =>
    have hs := hflags s (List.mem_cons_self s rest)
    have ih' := ih (fun x hx => hflags x (List.mem_cons_of_mem s hx))
    by_cases hh : s.handle = hT
    · rw [List.map_cons, markHandle, if_pos (by simp [hh]),
        List.filter_cons_of_neg (by simp), List.filter_cons_of_neg (by simp [hh]), ih']
    · rw [List.map_cons, markHandle, if_neg (by simp [hh]),
        List.filter_cons_of_pos (by simp [hs]), List.filter_cons_of_pos (by simp [hh]), ih']

theorem filter_removed_map_mark {hT : Nat} {B : List Slot}
    (hflags : ∀ s ∈ B, s.removed = false) :
    (B.map (markHandle hT)).filter (fun s => s.removed) =
      (B.filter (fun s => s.handle == hT)).map (markHandle hT) := by
  induction B with
  | nil => rfl
  | cons s rest ih =>
    have hs := hflags s (List.mem_cons_self s rest)
    have ih' := ih (fun x hx => hflags x (List.mem_cons_of_mem s hx))
    by_cases hh : s.handle = hT
    · rw [List.map_cons, markHandle, if_pos (by simp [hh]),
        List.filter_cons_of_pos (by simp), List.filter_cons_of_pos (by simp [hh]), ih',
        List.map_cons, markHandle, if_pos (by simp [hh])]
    · rw [List.map_cons, markHandle, if_neg (by simp [hh]),
        List.filter_cons_of_neg (by simp [hs]), List.filter_cons_of_neg (by simp [hh]), ih']

theorem filter_handle_eq_nil {hT : Nat} {X : List Slot}
    (h : hT ∉ X.map (fun x => x.handle)) :
    X.filter (fun x => x.handle == hT) = [] := by
  rw [List.filter_eq_nil_iff]
  intro a ha
  simp only [beq_iff_eq]
  intro hEq
  exact h (hEq ▸ List.mem_map_of_mem _ ha)

theorem filter_handle_eq_singleton {hT : Nat} {l : List Slot}
    (hnd : (l.map (fun x => x.handle)).Nodup) {s : Slot} (hs : s ∈ l)
    (hh : s.handle = hT) : l.filter (fun x => x.handle == hT) = [s] := by
  induction l with
  | nil => cases hs
  | cons a rest ih =>
    rw [List.map_cons, List.nodup_cons] at hnd
    by_cases ha : a.handle = hT
    · have hrest : hT ∉ rest.map (fun x => x.handle) := ha ▸ hnd.1
      have hsa : s = a := by
        rcases List.mem_cons.mp hs with h | h
        · exact h
        · exact absurd (hh ▸ List.mem_map_of_mem _ h) hrest
      rw [List.filter_cons_of_pos (by simp [ha]), filter_handle_eq_nil hrest, hsa]
    · have hsr : s ∈ rest := by
        rcases List.mem_cons.mp hs with h | h
        · exact absurd (h ▸ hh) ha
        · exact h
      rw [List.filter_cons_of_neg (by simp [ha]), ih hnd.2 hsr]

theorem invokesOf_invokes (X : List Slot) :
    invokesOf (X.map (fun s => Event.invoke s.handle)) = X.map (fun s => s.handle) := by
  induction X with
  | nil => rfl
  | cons s rest ih => simp [invokesOf] at ih ⊢; exact ih

theorem invokesOf_append (xs ys : List Event) :
    invokesOf (xs ++ ys) = invokesOf xs ++ invokesOf ys := by
  simp [invokesOf]

theorem invokesOf_cons_invoke (h : Nat) (rest : List Event) :
    invokesOf (Event.invoke h :: rest) = h :: invokesOf rest := rfl

theorem invokesOf_cons_emitCall (n : String) (rest : List Event) :
    invokesOf (Event.emitCall n :: rest) = invokesOf rest := rfl

theorem invokesOf_cons_discResult (h : Nat) (e : SsError) (rest : List Event) :
    invokesOf (Event.discResult h e :: rest) = invokesOf rest := rfl

theorem invokesOf_cons_freeSlot (h d : Nat) (rest : List Event) :
    invokesOf (Event.freeSlot h d :: rest) = invokesOf rest := rfl

theorem invokesOf_nil : invokesOf [] = [] := rfl

/-- One ss_emit on a single-signal registry where the subscriber sI carries
the script [ss_disconnect_handle hT] for a handle hT held by some subscriber
of the same signal, and every other subscriber's handler does nothing.  The
emission returns SS_OK; the walk invokes A, then sI, and then exactly the
subscribers after sI whose handle is not hT (the tombstoned node is skipped
if not yet reached); the end-of-emission sweep frees the hT node, leaving
the subscription list filtered of hT with the count decremented. -/
theorem ss_emit_disconnect (env : Env) {nm : String} {ds : Option String}
    {pr : Int} {sc : Nat} (A B : List Slot) (sI : Slot) (hT : Nat) {st : State}
    (hsigs : st.signals = [⟨nm, ds, A ++ sI :: B, sc, pr, 0⟩])
    (hnd : ((A ++ sI :: B).map (fun x => x.handle)).Nodup)
    (hflags : ∀ s ∈ A ++ sI :: B, s.removed = false)
    (hmem : hT ∈ (A ++ sI :: B).map (fun x => x.handle))
    (hT0 : hT ≠ 0)
    (hscript : env sI.func = [Cmd.disconnectHandle hT])
    (hnoop : ∀ s ∈ A ++ sI :: B, s.handle ≠ sI.handle → env s.func = [])
    {fuel : Nat} (hfuel : (A ++ sI :: B).length + 4 ≤ fuel) :
    ∃ Δ, ss_emit env fuel nm st = (SS_OK,
        { st with signals := [⟨nm, ds, (A ++ sI :: B).filter (fun s => s.handle != hT), sc - 1, pr, 0⟩],
                  log := st.log ++ Δ }) ∧
      invokesOf Δ = (A ++ sI :: B.filter (fun s => s.handle != hT)).map (fun s => s.handle) := by
  obtain ⟨f, rfl⟩ : ∃ f, fuel = f + 1 := ⟨fuel - 1, by omega⟩
  have hlen : (A ++ sI :: B).length = A.length + B.length + 1 := by simp; omega
  obtain ⟨g, hg⟩ : ∃ g, f - A.length = g + 1 := ⟨f - A.length - 1, by omega⟩
  have hgB : B.length + 3 ≤ g := by omega
  have hndA : ∀ s ∈ A, s.handle ≠ sI.handle := by
    intro s hs hEq
    have hnd' := hnd
    rw [List.map_append, List.nodup_append] at hnd'
    exact hnd'.2.2 (List.mem_map_of_mem _ hs) (by simp [hEq])
  have hsIB : sI.handle ∉ B.map (fun x => x.handle) := by
    have hnd' := hnd
    rw [List.map_append, List.nodup_append] at hnd'
    have hc := hnd'.2.1
    rw [List.map_cons, List.nodup_cons] at hc
    exact hc.1
  have hAmid : ∀ s ∈ A, env s.func = [] ∧ s.removed = false := fun s hs =>
    ⟨hnoop s (List.mem_append_left _ hs) (hndA s hs),
     hflags s (List.mem_append_left _ hs)⟩
  have h1 : ss_emit env (f + 1) nm st = (SS_OK, emit_finish nm
      (emit_walk env f nm ((A ++ sI :: B).head?.map (fun s => s.handle))
        { st with log := st.log ++ [Event.emitCall nm],
                  signals := [⟨nm, ds, A ++ sI :: B, sc, pr, 1⟩] })) := by
    rw [ss_emit_unfold env f nm st (find_signal_singleton rfl hsigs), hsigs,
      updateSignal_singleton nm _ rfl]
  have h2 : emit_walk env f nm ((A ++ sI :: B).head?.map (fun s => s.handle))
      { st with log := st.log ++ [Event.emitCall nm],
                signals := [⟨nm, ds, A ++ sI :: B, sc, pr, 1⟩] } =
      emit_walk env (g + 1) nm (some sI.handle)
        { st with log := (st.log ++ [Event.emitCall nm]) ++ A.map (fun s => Event.invoke s.handle),
                  signals := [⟨nm, ds, A ++ sI :: B, sc, pr, 1⟩] } := by
    have hpre := @emit_walk_noop_segment env nm ⟨nm, ds, A ++ sI :: B, sc, pr, 1⟩ rfl hnd A []
      (sI :: B)
      { st with log := st.log ++ [Event.emitCall nm],
                signals := [⟨nm, ds, A ++ sI :: B, sc, pr, 1⟩] }
      f rfl (by simp) hAmid (by omega)
    rw [hg] at hpre
    exact hpre
  have hfind₂ : find_signal nm
      ({ st with log := (st.log ++ [Event.emitCall nm]) ++ A.map (fun s => Event.invoke s.handle),
                 signals := [⟨nm, ds, A ++ sI :: B, sc, pr, 1⟩] } : State) =
      some ⟨nm, ds, A ++ sI :: B, sc, pr, 1⟩ :=
    @find_signal_singleton ⟨nm, ds, A ++ sI :: B, sc, pr, 1⟩ nm rfl _ rfl
  have hfsn : find_slot_with_next sI.handle (A ++ sI :: B) =
      some (sI, B.head?.map (fun x => x.handle)) :=
    find_slot_with_next_eq A B rfl hndA
  have h3 : emit_walk env (g + 1) nm (some sI.handle)
      { st with log := (st.log ++ [Event.emitCall nm]) ++ A.map (fun s => Event.invoke s.handle),
                signals := [⟨nm, ds, A ++ sI :: B, sc, pr, 1⟩] } =
      emit_walk env g nm (B.head?.map (fun x => x.handle))
        (runCmds env g [Cmd.disconnectHandle hT]
          { st with log := ((st.log ++ [Event.emitCall nm]) ++ A.map (fun s => Event.invoke s.handle)) ++ [Event.invoke sI.handle],
                    signals := [⟨nm, ds, A ++ sI :: B, sc, pr, 1⟩] }) := by
    rw [emit_walk_cons env g nm sI.handle _ hfind₂ hfsn,
      if_neg (by simp [hflags sI (by simp)]), hscript]
  have hdisc : ∀ u : State, u.signals = [⟨nm, ds, A ++ sI :: B, sc, pr, 1⟩] →
      ss_disconnect_handle hT u = (SS_OK,
        { u with signals := [⟨nm, ds, (A ++ sI :: B).map (markHandle hT), sc, pr, 1⟩] }) := by
    intro u hu
    have hslots : disconnect_in_slots hT 1 (A ++ sI :: B) =
        some ((A ++ sI :: B).map (markHandle hT), [], false) :=
      disconnect_in_slots_mark one_ne_zero hT hnd hmem
    rw [ss_disconnect_handle, if_neg (by simpa using hT0), hu]
    simp [disconnect_in_signals, hslots]
  have h4 : runCmds env g [Cmd.disconnectHandle hT]
      { st with log := ((st.log ++ [Event.emitCall nm]) ++ A.map (fun s => Event.invoke s.handle)) ++ [Event.invoke sI.handle],
                signals := [⟨nm, ds, A ++ sI :: B, sc, pr, 1⟩] } =
      { st with log := (((st.log ++ [Event.emitCall nm]) ++ A.map (fun s => Event.invoke s.handle)) ++ [Event.invoke sI.handle]) ++ [Event.discResult hT SS_OK],
                signals := [⟨nm, ds, (A ++ sI :: B).map (markHandle hT), sc, pr, 1⟩] } := by
    rw [runCmds_disc env hT (by omega) _, hdisc _ rfl]
  have hndM : (((A ++ sI :: B).map (markHandle hT)).map (fun x => x.handle)).Nodup := by
    rw [map_markHandle_handles]
    exact hnd
  have hbenM : ∀ s ∈ B.map (markHandle hT),
      benignScript env (((A ++ sI :: B).map (markHandle hT)).map (fun x => x.handle)) s.func := by
    intro s hs
    obtain ⟨b, hb, rfl⟩ := List.mem_map.mp hs
    left
    rw [markHandle_func]
    refine hnoop b (by simp [hb]) ?_
    intro hEq
    exact hsIB (hEq ▸ List.mem_map_of_mem _ hb)
  obtain ⟨Δw, hw, hi⟩ := @emit_walk_benign env nm
    ⟨nm, ds, (A ++ sI :: B).map (markHandle hT), sc, pr, 1⟩ rfl hndM
    (B.map (markHandle hT)) (A.map (markHandle hT) ++ [markHandle hT sI])
    { st with log := (((st.log ++ [Event.emitCall nm]) ++ A.map (fun s => Event.invoke s.handle)) ++ [Event.invoke sI.handle]) ++ [Event.discResult hT SS_OK],
              signals := [⟨nm, ds, (A ++ sI :: B).map (markHandle hT), sc, pr, 1⟩] }
    g rfl (by simp) (by rw [List.length_map]; omega) hbenM
  have h5 : emit_walk env g nm (B.head?.map (fun x => x.handle))
      { st with log := (((st.log ++ [Event.emitCall nm]) ++ A.map (fun s => Event.invoke s.handle)) ++ [Event.invoke sI.handle]) ++ [Event.discResult hT SS_OK],
                signals := [⟨nm, ds, (A ++ sI :: B).map (markHandle hT), sc, pr, 1⟩] } =
      { st with log := ((((st.log ++ [Event.emitCall nm]) ++ A.map (fun s => Event.invoke s.handle)) ++ [Event.invoke sI.handle]) ++ [Event.discResult hT SS_OK]) ++ Δw,
                signals := [⟨nm, ds, (A ++ sI :: B).map (markHandle hT), sc, pr, 1⟩] } := by
    rw [← map_markHandle_head hT B]
    exact hw
  obtain ⟨sT, hsT, hhT⟩ := List.mem_map.mp hmem
  have hgen : ∀ (X F : List Slot) (y : Slot) (u : State),
      u.signals = [⟨nm, ds, X, sc, pr, 1⟩] →
      X.filter (fun s => !s.removed) = F →
      X.filter (fun s => s.removed) = [y] →
      y.handle = hT →
      emit_finish nm u = { u with
        signals := [⟨nm, ds, F, sc - 1, pr, 0⟩],
        log := u.log ++ [Event.freeSlot hT 0] } := by
    intro X F y u hu hF hR hy
    rw [emit_finish]
    simp only [@find_signal_singleton ⟨nm, ds, X, sc, pr, 1⟩ nm rfl u hu]
    simp [sweep_removed_slots, updateSignal, hu, hF, hR, hy]
  have hfinAll : ∀ u : State,
      u.signals = [⟨nm, ds, (A ++ sI :: B).map (markHandle hT), sc, pr, 1⟩] →
      emit_finish nm u = { u with
        signals := [⟨nm, ds, (A ++ sI :: B).filter (fun s => s.handle != hT), sc - 1, pr, 0⟩],
        log := u.log ++ [Event.freeSlot hT 0] } := by
    intro u hu
    have hfr : ((A ++ sI :: B).map (markHandle hT)).filter (fun s => s.removed) =
        [markHandle hT sT] := by
      rw [filter_removed_map_mark hflags, filter_handle_eq_singleton hnd hsT hhT]
      rfl
    have hfn : ((A ++ sI :: B).map (markHandle hT)).filter (fun s => !s.removed) =
        (A ++ sI :: B).filter (fun s => s.handle != hT) :=
      filter_not_removed_map_mark hflags
    exact hgen _ _ (markHandle hT sT) u hu hfn hfr (by rw [markHandle_handle]; exact hhT)
  have hfin : emit_finish nm
      ({ st with log := ((((st.log ++ [Event.emitCall nm]) ++ A.map (fun s => Event.invoke s.handle)) ++ [Event.invoke sI.handle]) ++ [Event.discResult hT SS_OK]) ++ Δw,
                 signals := [⟨nm, ds, (A ++ sI :: B).map (markHandle hT), sc, pr, 1⟩] } : State) =
      { st with log := (((((st.log ++ [Event.emitCall nm]) ++ A.map (fun s => Event.invoke s.handle)) ++ [Event.invoke sI.handle]) ++ [Event.discResult hT SS_OK]) ++ Δw) ++ [Event.freeSlot hT 0],
                signals := [⟨nm, ds, (A ++ sI :: B).filter (fun s => s.handle != hT), sc - 1, pr, 0⟩] } :=
    hfinAll _ rfl
  refine ⟨Event.emitCall nm :: (A.map (fun s => Event.invoke s.handle) ++
      Event.invoke sI.handle :: Event.discResult hT SS_OK :: (Δw ++ [Event.freeSlot hT 0])),
    ?_, ?_⟩
  · rw [h1, h2, h3, h4, h5, hfin]
    simp
  · have hfi : invokesOf Δw = (B.filter (fun s => s.handle != hT)).map (fun s => s.handle) := by
      rw [hi, filter_not_removed_map_mark (fun s hs => hflags s (by simp [hs]))]
    rw [invokesOf_cons_emitCall, invokesOf_append, invokesOf_invokes,
      invokesOf_cons_invoke, invokesOf_cons_discResult, invokesOf_append, hfi,
      invokesOf_cons_freeSlot, invokesOf_nil, List.append_nil, List.map_append,
      List.map_cons]

/-- C2: during an emission of a signal, when the subscriber sI's handler
calls ss_disconnect_handle on the handle hT of a subscriber of that same
signal (another one, or sI itself) and every other handler does nothing,
then (a) the emission in progress returns SS_OK and invokes every subscriber
other than the hT one exactly once, in list order, with no skips or
duplicates (the hT subscriber itself is still invoked if it was already
reached, and skipped if the disconnect tombstoned it before the walk got
there); and (b) on the next emission the disconnected subscriber is gone —
it is not invoked, the registry holds exactly the filtered subscription
list, and the emission leaves the registry unchanged, so the same holds for
every later emission. -/
theorem C2_disconnect_during_emit (env : Env) (nm : String) (ds : Option String)
    (pr : Int) (sc : Nat) (A B : List Slot) (sI : Slot) (hT : Nat) (st : State)
    (hsigs : st.signals = [⟨nm, ds, A ++ sI :: B, sc, pr, 0⟩])
    (hnd : ((A ++ sI :: B).map (fun x => x.handle)).Nodup)
    (hflags : ∀ s ∈ A ++ sI :: B, s.removed = false)
    (hmem : hT ∈ (A ++ sI :: B).map (fun x => x.handle))
    (hT0 : hT ≠ 0)
    (hscript : env sI.func = [Cmd.disconnectHandle hT])
    (hnoop : ∀ s ∈ A ++ sI :: B, s.handle ≠ sI.handle → env s.func = [])
    (fuel : Nat) (hfuel : (A ++ sI :: B).length + 4 ≤ fuel) :
    ∃ Δ₁ Δ₂,
      ss_emit env fuel nm st = (SS_OK,
        { st with signals := [⟨nm, ds, (A ++ sI :: B).filter (fun s => s.handle != hT), sc - 1, pr, 0⟩],
                  log := st.log ++ Δ₁ }) ∧
      invokesOf Δ₁ = (A ++ sI :: B.filter (fun s => s.handle != hT)).map (fun s => s.handle) ∧
      (∀ s ∈ A ++ sI :: B, s.handle ≠ hT → (invokesOf Δ₁).count s.handle = 1) ∧
      ss_emit env fuel nm (ss_emit env fuel nm st).2 = (SS_OK,
        { (ss_emit env fuel nm st).2 with
            log := (ss_emit env fuel nm st).2.log ++ Δ₂ }) ∧
      invokesOf Δ₂ = ((A ++ sI :: B).filter (fun s => s.handle != hT)).map (fun s => s.handle) ∧
      hT ∉ invokesOf Δ₂ := by
  obtain ⟨Δ₁, hrun, hinv⟩ :=
    ss_emit_disconnect env A B sI hT hsigs hnd hflags hmem hT0 hscript hnoop hfuel
  have hflags' : ∀ s ∈ (A ++ sI :: B).filter (fun x => x.handle != hT), s.removed = false :=
    fun s hs => hflags s (List.mem_of_mem_filter hs)
  have hnd' : (((A ++ sI :: B).filter (fun x => x.handle != hT)).map
      (fun x => x.handle)).Nodup :=
    ((List.filter_sublist (A ++ sI :: B)).map (fun x => x.handle)).nodup hnd
  have hTout : hT ∉ ((A ++ sI :: B).filter (fun x => x.handle != hT)).map
      (fun x => x.handle) := by
    intro hmem2
    obtain ⟨x, hx, hxh⟩ := List.mem_map.mp hmem2
    have hpx := List.of_mem_filter hx
    simp [hxh] at hpx
  have hben' : ∀ s ∈ (A ++ sI :: B).filter (fun x => x.handle != hT),
      benignScript env (((A ++ sI :: B).filter (fun x => x.handle != hT)).map
        (fun x => x.handle)) s.func := by
    intro s hs
    by_cases hsi : s.handle = sI.handle
    · have hseq : s = sI := mem_handle_unique hnd (List.mem_of_mem_filter hs) (by simp) hsi
      exact Or.inr ⟨hT, by rw [hseq, hscript], hTout⟩
    · exact Or.inl (hnoop s (List.mem_of_mem_filter hs) hsi)
  have hfuel₂ : ((A ++ sI :: B).filter (fun x => x.handle != hT)).length + 3 ≤ fuel := by
    have hle := List.length_filter_le (fun x => x.handle != hT) (A ++ sI :: B)
    omega
  obtain ⟨Δ, hrun₂, hinv₂⟩ := ss_emit_benign env
    (show (ss_emit env fuel nm st).2.signals =
      [⟨nm, ds, (A ++ sI :: B).filter (fun x => x.handle != hT), sc - 1, pr, 0⟩] by rw [hrun])
    hnd' hben' hfuel₂
  refine ⟨Δ₁, Event.emitCall nm :: Δ, hrun, hinv, ?_, ?_, ?_, ?_⟩
  · intro s hs hsh
    rw [hinv]
    have hsubl : List.Sublist (A ++ sI :: B.filter (fun x => x.handle != hT)) (A ++ sI :: B) :=
      (List.Sublist.cons_cons sI (List.filter_sublist B)).append_left A
    have hmem₂ : s.handle ∈ (A ++ sI :: B.filter (fun x => x.handle != hT)).map
        (fun x => x.handle) := by
      apply List.mem_map_of_mem
      rcases List.mem_append.mp hs with h | h
      · exact List.mem_append_left _ h
      · rcases List.mem_cons.mp h with h | h
        · rw [h]
          exact List.mem_append_right _ (List.mem_cons_self _ _)
        · exact List.mem_append_right _
            (List.mem_cons_of_mem _ (List.mem_filter.mpr ⟨h, by simp [hsh]⟩))
    exact List.count_eq_one_of_mem ((hsubl.map (fun x => x.handle)).nodup hnd) hmem₂
  · rw [hrun₂, filter_not_removed_of_all hflags', filter_removed_nil_of_all hflags']
    simp only [List.length_nil, Nat.sub_zero, List.map_nil, List.append_nil]
    rw [show [(⟨nm, ds, (A ++ sI :: B).filter (fun x => x.handle != hT), sc - 1, pr, 0⟩ : Signal)] =
      (ss_emit env fuel nm st).2.signals by rw [hrun]]
  · rw [invokesOf_cons_emitCall, hinv₂, filter_not_removed_of_all hflags']
  · rw [invokesOf_cons_emitCall, hinv₂, filter_not_removed_of_all hflags']
    exact hTout

/-- Witness for C2: the CRITICAL subscriber (handle 1) disconnects handle 3
during the emission; the emission invokes handles 1 and 2 (each exactly
once), the sweep frees handle 3, and the next emission again invokes exactly
handles 1 and 2 — handle 3 is never invoked again. -/
theorem C2_disconnect_during_emit_witness :
    ∃ Δ₁ Δ₂,
      ss_emit c2_env 10 "s" c2_state = (SS_OK,
        { c2_state with
            signals := [⟨"s", none,
              ([] ++ (⟨9, 0, 15, 1, false⟩ : Slot) ::
                  [⟨0, 0, 10, 2, false⟩, ⟨0, 0, 5, 3, false⟩]).filter (fun s : Slot => s.handle != 3),
              3 - 1, 5, 0⟩],
            log := c2_state.log ++ Δ₁ }) ∧
      invokesOf Δ₁ =
        ([] ++ (⟨9, 0, 15, 1, false⟩ : Slot) ::
            [(⟨0, 0, 10, 2, false⟩ : Slot), ⟨0, 0, 5, 3, false⟩].filter
              (fun s : Slot => s.handle != 3)).map (fun s : Slot => s.handle) ∧
      (∀ s ∈ [] ++ (⟨9, 0, 15, 1, false⟩ : Slot) :: [⟨0, 0, 10, 2, false⟩, ⟨0, 0, 5, 3, false⟩],
        s.handle ≠ 3 → (invokesOf Δ₁).count s.handle = 1) ∧
      ss_emit c2_env 10 "s" (ss_emit c2_env 10 "s" c2_state).2 = (SS_OK,
        { (ss_emit c2_env 10 "s" c2_state).2 with
            log := (ss_emit c2_env 10 "s" c2_state).2.log ++ Δ₂ }) ∧
      invokesOf Δ₂ =
        (([] ++ (⟨9, 0, 15, 1, false⟩ : Slot) ::
            [⟨0, 0, 10, 2, false⟩, ⟨0, 0, 5, 3, false⟩]).filter
          (fun s : Slot => s.handle != 3)).map (fun s : Slot => s.handle) ∧
      (3 : Nat) ∉ invokesOf Δ₂ :=
  C2_disconnect_during_emit c2_env "s" none 5 3 []
    [⟨0, 0, 10, 2, false⟩, ⟨0, 0, 5, 3, false⟩] ⟨9, 0, 15, 1, false⟩ 3 c2_state
    (by decide) (by decide) (by decide) (by decide) (by decide) rfl (by decide) 10 (by decide)

end SsLib
